import Mathlib

/-!
Verification of the SEO audit engine (`src/audit.py`).

The development shallowly embeds the audit engine in Lean: pure string and
path manipulation is translated to executable functions over `List Char`
(Python string semantics are followed exactly, including the behavior of
`os.path.dirname`, `str.split`, `str.lstrip`, and CPython 3.11's
`urllib.parse.urljoin`/`urlparse` on the restricted inputs the engine feeds
them); the filesystem and the network are abstract oracles; the mutable
`AuditResult` object is threaded explicitly through every operation.
-/

namespace SEOAudit

/-! ### String utilities (Python semantics, structural recursion) -/

/-- Python `s.split(c)`: split at every occurrence of `c`; the result is
always nonempty (`''.split(c) == ['']`). -/
def splitCh (c : Char) : List Char → List (List Char)
  | [] => [[]]
  | x :: xs =>
    let r := splitCh c xs
    if x = c then [] :: r
    else
      match r with
      | [] => [[x]]
      | y :: ys => (x :: y) :: ys

/-- `s.split(c)` lifted to `String`. -/
def sSplit (c : Char) (s : String) : List String :=
  (splitCh c s.data).map String.mk

/-- `c.join(parts)` lifted to `String`. -/
def sJoin (c : Char) : List String → String
  | [] => ""
  | [x] => x
  | x :: y :: rest => x ++ String.mk [c] ++ sJoin c (y :: rest)

/-- Python `s.startswith(pre)`. -/
def pyStartsWith (s pre : String) : Bool :=
  pre.data.isPrefixOf s.data

/-- Python `s.endswith(suf)`. -/
def pyEndsWith (s suf : String) : Bool :=
  suf.data.isSuffixOf s.data

/-- Python `c in s` for a single character. -/
def pyContainsChar (s : String) (c : Char) : Bool :=
  s.data.contains c

/-- Python `s[n:]`. -/
def pyDrop (s : String) (n : Nat) : String :=
  String.mk (s.data.drop n)

/-- Python `s[:-n]` (for `n ≤ len(s)`; clamps at the empty string otherwise,
exactly as Python slicing does). -/
def pyDropRight (s : String) (n : Nat) : String :=
  String.mk (s.data.take (s.data.length - n))

/-- Python `s.lstrip('/')`. -/
def pyLstripSlash (s : String) : String :=
  String.mk (s.data.dropWhile (· = '/'))

/-- Python `len(s)`. -/
def sLength (s : String) : Nat :=
  s.data.length

/-- Python `s.replace('\\', '/')` (single-character replacement). -/
def backslashToSlash (s : String) : String :=
  String.mk (s.data.map fun ch => if ch = '\\' then '/' else ch)

/-- Python `os.path.dirname` for POSIX paths: everything up to the last
`'/'`, with trailing slashes stripped unless the head is all slashes;
`''` when there is no slash. -/
def pyDirname (s : String) : String :=
  let afterSlash := s.data.reverse.dropWhile (fun c => c ≠ '/')
  if afterSlash.isEmpty then ""
  else if afterSlash.all (· = '/') then String.mk afterSlash.reverse
  else String.mk ((afterSlash.dropWhile (· = '/')).reverse)

/-- `s.split('#')[0].split('?')[0]`: the part of the string before the first
`'#'` or `'?'`. -/
def stripQueryFrag (s : String) : String :=
  String.mk ((s.data.takeWhile (· ≠ '#')).takeWhile (· ≠ '?'))

/-! ### Filesystem model

The audit runs over a fixed directory tree rooted at `Config.ROOT_DIR`.
We model the tree by the set of files and the set of directories that
exist under the root, each named by its `'/'`-separated path relative to
the root (no leading or trailing slash).  `os.path.exists` is true for
files and directories, `os.path.isfile` only for files. -/

structure FS where
  files : List String
  dirs : List String
  deriving DecidableEq

/-- `os.path.isfile(os.path.join(ROOT_DIR, p))`. -/
def FS.isFile (fs : FS) (p : String) : Bool :=
  fs.files.contains p

/-- `os.path.exists(os.path.join(ROOT_DIR, p))`. -/
def FS.existsPath (fs : FS) (p : String) : Bool :=
  fs.files.contains p || fs.dirs.contains p

/-- `os.path.join` of two root-relative components (the root-relative key of
`os.path.join(ROOT_DIR, a, b)`).  Python inserts a `'/'` only when the left
part is nonempty and does not already end with one. -/
def joinRel (a b : String) : String :=
  if a = "" then b
  else if pyEndsWith a "/" then a ++ b
  else a ++ "/" ++ b

/-- `check_local_file_exists` (src/audit.py lines 59-92).  Decides whether a
local file backs the given URL path.  `path3` is the root directory itself
when the stripped path is empty; the root directory exists but is not a
file, so that disjunct is false either way and we test the file list
directly. -/
def check_local_file_exists (fs : FS) (urlPath : String) : Bool :=
  let p := stripQueryFrag urlPath
  let p := if pyEndsWith p "/" then pyDropRight p 1 else p
  if p = "" then fs.existsPath "index.html"
  else
    let l := pyLstripSlash p
    if fs.existsPath (l ++ ".html") then true
    else if fs.existsPath (joinRel l "index.html") then true
    else if fs.existsPath l && fs.isFile l then true
    else false

/-! ### URL parsing model (CPython 3.11 `urllib.parse`)

`is_external(url)` is `bool(urlparse(url).netloc)`.  CPython recognizes a
scheme iff the URL has a `':'` at a positive index, its first character is
an ASCII letter, and everything before the `':'` consists of ASCII
letters, digits, `'+'`, `'-'`, `'.'`; after removing the scheme a network
location is present iff the remainder starts with `"//"`, and it extends
to the next `'/'`, `'?'` or `'#'`. -/

/-- A character allowed in a URL scheme. -/
def isSchemeChar (c : Char) : Bool :=
  c.isAlpha || c.isDigit || c = '+' || c = '-' || c = '.'

/-- Split a URL into `(scheme, rest)`; the scheme is `""` when absent, in
which case `rest` is the whole URL. -/
def schemeSplit (url : String) : String × String :=
  let pre := url.data.takeWhile (· ≠ ':')
  if pre.length < url.data.length && !pre.isEmpty &&
      (url.data.headD ' ').isAlpha && pre.all isSchemeChar then
    (String.mk (pre.map Char.toLower), String.mk (url.data.drop (pre.length + 1)))
  else ("", url)

/-- The network location of the scheme-stripped remainder of a URL. -/
def netlocOf (rest : String) : String :=
  if pyStartsWith rest "//" then
    String.mk ((rest.data.drop 2).takeWhile fun c => !(c = '/' || c = '?' || c = '#'))
  else ""

/-- `is_external` (src/audit.py lines 34-35): `bool(urlparse(url).netloc)`. -/
def is_external (url : String) : Bool :=
  netlocOf (schemeSplit url).2 ≠ ""

/-- The scheme-plus-authority prefix `scheme://netloc` of a URL, used to
state what an exact same-origin comparison against `baseUrl` would be. -/
def schemeNetloc (url : String) : String :=
  (schemeSplit url).1 ++ "://" ++ netlocOf (schemeSplit url).2

/-- The path component of a relative reference (no scheme, no authority):
the characters before the first `'?'` or `'#'`. -/
def refPath (u : String) : String :=
  String.mk (u.data.takeWhile fun c => !(c = '?' || c = '#'))

/-! ### `urljoin` model

`normalize_local_url` computes
`urlparse(urljoin(f"http://dummy.com/{rel_dir}/", url)).path`.
We model that composition for the inputs the engine feeds it: `url` has no
scheme, no authority and no `';'` parameters (hrefs classified internal).
CPython 3.11 resolves such a reference by taking the base path's segments
without the last one, appending the reference path's segments, dropping
empty interior segments, then folding `'.'`/`'..'` over a stack that may
also pop the leading empty segment; a trailing `'.'`/`'..'` appends a
final empty segment, an empty join becomes `"/"`, and `urlunparse`
restores a leading `'/'` when the netloc is present.  This was validated
against CPython 3.11 on an exhaustive battery of segment combinations. -/

/-- One step of CPython's segment resolution stack. -/
def stepSeg (acc : List String) (seg : String) : List String :=
  if seg = ".." then acc.dropLast
  else if seg = "." then acc
  else acc ++ [seg]

/-- `urlparse(urljoin(f"http://dummy.com/{relDir}/", url)).path` for a
reference `url` with no scheme and no authority. -/
def urljoinDummyPath (relDir url : String) : String :=
  if url = "" then "/" ++ relDir ++ "/"
  else
    let path := refPath url
    if path = "" then "/" ++ relDir ++ "/"
    else
      let baseParts := sSplit '/' ("/" ++ relDir ++ "/")
      let baseParts := if baseParts.getLastD "" ≠ "" then baseParts.dropLast else baseParts
      let segments := baseParts ++ sSplit '/' path
      let first := segments.headD ""
      let lastSeg := segments.getLastD ""
      let middle := (segments.drop 1).dropLast
      let segs := first :: (middle.filter (· ≠ "")) ++ [lastSeg]
      let resolved := segs.foldl stepSeg []
      let resolved := if lastSeg = "." || lastSeg = ".." then resolved ++ [""] else resolved
      let joined := sJoin '/' resolved
      if joined = "" then "/"
      else if pyStartsWith joined "/" then joined
      else "/" ++ joined

/-- `normalize_local_url` (src/audit.py lines 37-57).  `relPath` is
`os.path.relpath(current_file_path, Config.ROOT_DIR)`, the page's path
relative to the site root, so `rel_dir` is its `os.path.dirname`. -/
def normalize_local_url (url relPath : String) : String :=
  if pyStartsWith url "/" then url
  else
    let relDir := pyDirname relPath
    if relDir = "." then "/" ++ url
    else urljoinDummyPath relDir url

/-! ### `AuditResult` (src/audit.py lines 131-150) -/

/-- The accumulated audit state.  `inbound_links` models the
`defaultdict(int)` histogram as a total function (absent keys read `0`);
`external_links` models a Python `set` by a duplicate-free list in first
insertion order, compared by membership. -/
structure AuditResult where
  score : Int
  errors : List String
  warnings : List String
  infos : List String
  inbound_links : String → Nat
  external_links : List String
  pages_scanned : Nat

/-- `AuditResult.__init__`. -/
def initResult : AuditResult :=
  { score := 100, errors := [], warnings := [], infos := []
    inbound_links := fun _ => 0, external_links := [], pages_scanned := 0 }

/-- `AuditResult.add_error`. -/
def add_error (r : AuditResult) (msg : String) (penalty : Int) : AuditResult :=
  { r with errors := r.errors ++ [msg], score := max 0 (r.score - penalty) }

/-- `AuditResult.add_warning`. -/
def add_warning (r : AuditResult) (msg : String) (penalty : Int) : AuditResult :=
  { r with warnings := r.warnings ++ [msg], score := max 0 (r.score - penalty) }

/-- `AuditResult.add_info`. -/
def add_info (r : AuditResult) (msg : String) : AuditResult :=
  { r with infos := r.infos ++ [msg] }

/-- `self.result.inbound_links[clean_path] += 1`. -/
def bumpInbound (f : String → Nat) (k : String) : String → Nat :=
  fun p => if p = k then f p + 1 else f p

/-- `self.result.external_links.add(url)` (set insertion). -/
def insertExternal (r : AuditResult) (url : String) : AuditResult :=
  { r with external_links :=
      if r.external_links.contains url then r.external_links
      else r.external_links ++ [url] }

/-! ### Issue applications (for the score invariant) -/

/-- One application of an Issue to the result: an Error or Warning with a
penalty, or an Info entry. -/
inductive IssueApp where
  | err (msg : String) (p : Int)
  | warn (msg : String) (p : Int)
  | info (msg : String)

/-- Apply one Issue to the result via the corresponding `AuditResult`
method. -/
def applyIssue (r : AuditResult) : IssueApp → AuditResult
  | .err m p => add_error r m p
  | .warn m p => add_warning r m p
  | .info m => add_info r m

/-- The penalty an Issue application carries (Info carries none). -/
def penaltyOf : IssueApp → Int
  | .err _ p => p
  | .warn _ p => p
  | .info _ => 0

/-- Sum of the penalties of a sequence of Issue applications. -/
def sumPenalties (l : List IssueApp) : Int :=
  (l.map penaltyOf).sum

/-! ### Per-page structural checks and link extraction
(`PageAuditor`, src/audit.py lines 152-255)

A scanned page is modeled by its root-relative path together with the
facts the structural checks read off the parsed document: the number of
`<h1>` tags, whether a JSON-LD block is present, whether a breadcrumb
marker is present, and the ordered list of `href` values of its anchors. -/

structure PageDoc where
  relPath : String
  h1Count : Nat
  hasSchema : Bool
  hasBreadcrumb : Bool
  hrefs : List String

/-- `IGNORE_URL_PREFIXES` (src/audit.py line 17). -/
def IGNORE_URL_PREFIXES : List String :=
  ["/go/", "cdn-cgi", "javascript:", "mailto:", "tel:", "#"]

/-- `raw_href.startswith(IGNORE_URL_PREFIXES)`. -/
def isIgnoredHref (raw : String) : Bool :=
  IGNORE_URL_PREFIXES.any fun p => pyStartsWith raw p

/-- `PageAuditor.check_h1` (lines 176-181). -/
def check_h1 (page : PageDoc) (r : AuditResult) : AuditResult :=
  if page.h1Count = 0 then
    add_error r ("Missing H1 tag in " ++ page.relPath) 5
  else if page.h1Count > 1 then
    add_warning r ("Multiple H1 tags (" ++ toString page.h1Count ++ ") in " ++ page.relPath) 0
  else r

/-- `PageAuditor.check_schema` (lines 183-186). -/
def check_schema (page : PageDoc) (r : AuditResult) : AuditResult :=
  if !page.hasSchema then
    add_warning r ("No Schema (JSON-LD) found in " ++ page.relPath) 2
  else r

/-- `PageAuditor.check_breadcrumb` (lines 188-202): the root `index.html`
is skipped; a page without a marker is warned only when its relative path
contains a `'/'` (a "deep page"). -/
def check_breadcrumb (page : PageDoc) (r : AuditResult) : AuditResult :=
  if page.relPath = "index.html" then r
  else if page.hasBreadcrumb then r
  else if pyContainsChar (backslashToSlash page.relPath) '/' then
    add_warning r ("No Breadcrumb found in deep page " ++ page.relPath) 0
  else r

/-- The counting key derived from a resolved path (lines 249-253): strip
query/fragment, strip one trailing slash unless the path is `"/"`, and map
the empty string to `"/"`. -/
def cleanPathOf (absPath : String) : String :=
  let c := stripQueryFrag absPath
  let c := if c ≠ "/" && pyEndsWith c "/" then pyDropRight c 1 else c
  if c = "" then "/" else c

/-- The two style checks at the top of `process_internal_link`
(lines 233-239): a `.html` href that is not an explicit `index.html` link,
and a page-relative (non-`/`-initial) href, each a Warning with penalty 2. -/
def style_checks (pageRelPath : String) (r : AuditResult) (rawHref : String) : AuditResult :=
  let r :=
    if pyEndsWith rawHref ".html" && !((sSplit '/' rawHref).getLastD "" = "index.html") then
      add_warning r ("Link with .html extension in " ++ pageRelPath ++ ": " ++ rawHref
        ++ " -> Should be Clean URL") 2
    else r
  if !(pyStartsWith rawHref "/") then
    add_warning r ("Relative path used in " ++ pageRelPath ++ ": " ++ rawHref
      ++ " -> Should be absolute path (starts with /)") 2
  else r

/-- `PageAuditor.process_internal_link` (lines 232-255): style checks,
then either a dead-link Error with penalty 10 or an inbound-count
increment for the cleaned canonical path. -/
def process_internal_link (fs : FS) (pageRelPath : String) (r : AuditResult)
    (rawHref : String) : AuditResult :=
  let r := style_checks pageRelPath r rawHref
  let absPath := normalize_local_url rawHref pageRelPath
  if !check_local_file_exists fs absPath then
    add_error r ("Dead Internal Link in " ++ pageRelPath ++ ": " ++ rawHref
      ++ " (Resolves to " ++ absPath ++ ")") 10
  else
    { r with inbound_links := bumpInbound r.inbound_links (cleanPathOf absPath) }

/-- Classification and processing of one href (`PageAuditor.check_links`
loop body, lines 204-230).  The `rel`-attribute check on external links is
a `pass` in the source and contributes nothing. -/
def processHref (fs : FS) (baseUrl pageRelPath : String) (r : AuditResult)
    (raw : String) : AuditResult :=
  if isIgnoredHref raw then r
  else if is_external raw then
    if baseUrl ≠ "" && pyStartsWith raw baseUrl then
      let r := add_warning r ("Internal link using full URL in " ++ pageRelPath ++ ": "
        ++ raw ++ " -> Should be relative/absolute path") 2
      let path := pyDrop raw (sLength baseUrl)
      let path := if path = "" then "/" else path
      process_internal_link fs pageRelPath r path
    else insertExternal r raw
  else process_internal_link fs pageRelPath r raw

/-- `PageAuditor.check_links` (lines 204-230) over the page's anchors. -/
def check_links (fs : FS) (baseUrl pageRelPath : String) (r : AuditResult)
    (hrefs : List String) : AuditResult :=
  hrefs.foldl (processHref fs baseUrl pageRelPath) r

/-- `PageAuditor.run` (lines 160-174) on a successfully parsed page: the
four checks in order, then the scanned-pages counter. -/
def auditPage (fs : FS) (baseUrl : String) (r : AuditResult) (page : PageDoc) : AuditResult :=
  let r := check_h1 page r
  let r := check_schema page r
  let r := check_breadcrumb page r
  let r := check_links fs baseUrl page.relPath r page.hrefs
  { r with pages_scanned := r.pages_scanned + 1 }

/-! ### Orphan detection (src/audit.py lines 315-356) -/

/-- The per-page body of the orphan check in `main`: compute the file's
candidate URL path(s), normalize them, and flag the page when neither they
nor the literal `/`-prefixed file path have a positive inbound count.  The
root `index.html` is skipped before this is reached. -/
def orphanCheckPage (r : AuditResult) (relPath : String) : AuditResult :=
  if relPath = "index.html" then r
  else
    let urlPaths : List String :=
      if pyEndsWith relPath "index.html" then
        let p := "/" ++ pyDirname relPath
        [if p = "/." then "/" else p]
      else
        ["/" ++ pyDropRight relPath 5]
    let normalized := urlPaths.map fun p =>
      let p := backslashToSlash p
      if p ≠ "/" && pyEndsWith p "/" then pyDropRight p 1 else p
    let isOrphan := normalized.all fun p => r.inbound_links p = 0
    let rawFileUrl := "/" ++ backslashToSlash relPath
    let isOrphan := isOrphan && r.inbound_links rawFileUrl = 0
    if isOrphan then
      add_warning r ("Orphan Page (No inbound links): " ++ relPath) 5
    else r

/-! ### External link checking (src/audit.py lines 257-286)

A probe either returns an HTTP status or fails at the transport level
(`requests.exceptions.RequestException`, including timeouts).  The network
is an oracle giving, for each URL, the outcome of the lightweight `HEAD`
probe and of the full `GET` probe. -/

inductive ProbeResult where
  | status (code : Nat)
  | failure (msg : String)
  deriving DecidableEq

structure NetOracle where
  head : String → ProbeResult
  get : String → ProbeResult

/-- `ExternalLinkChecker.check_one` (lines 276-286): `HEAD`, a single `GET`
retry on 405, and `(999, str(e))` on any transport failure of either
attempt. -/
def check_one (net : NetOracle) (url : String) : Nat × String :=
  match net.head url with
  | .failure e => (999, e)
  | .status c =>
    if c = 405 then
      match net.get url with
      | .failure e => (999, e)
      | .status c2 => (c2, "OK")
    else (c, "OK")

/-- `ExternalLinkChecker.check_all` (lines 258-274): the dead links, as
`(url, status)` pairs, among the submitted URLs in completion order. -/
def check_all (net : NetOracle) (links : List String) : List (String × Nat) :=
  links.filterMap fun url =>
    let st := (check_one net url).1
    if st ≥ 400 then some (url, st) else none

/-- Step 5 of `main` (lines 358-362): record a Dead External Link error,
penalty 5, for every dead URL. -/
def externalPhase (net : NetOracle) (r : AuditResult) (order : List String) : AuditResult :=
  (check_all net order).foldl
    (fun r p => add_error r ("Dead External Link: " ++ p.1 ++ " (Status: "
      ++ toString p.2 ++ ")") 5) r

/-! ### The whole run (`main`, src/audit.py lines 290-362)

The directory walk yields the selected pages in some filesystem-dependent
order (`pages`); the external checker's thread pool completes its probes
in some timing-dependent order (`extOrder`, a permutation of the collected
external-URL set).  Both orders are explicit parameters of the model. -/

def runAudit (fs : FS) (baseUrl : String) (pages : List PageDoc) (net : NetOracle)
    (extOrder : List String) : AuditResult :=
  let r := pages.foldl (auditPage fs baseUrl) initResult
  let r := pages.foldl (fun r page => orphanCheckPage r page.relPath) r
  externalPhase net r extOrder

/-! ### Claim-side and summary definitions

Definitions used by the claim theorems below: oracles transcribed from
the claims' own wording (for refinement comparisons), and order-free
summary functions that the proofs show to characterize the folds of the
engine. -/

/-- The oracle exactly as the claim describes it: after stripping a
trailing slash, true by first match among the root case, `<path>.html`
existing *as a file*, `<path>/index.html` existing *as a file*, and an
exact file at `<path>`. -/
def claimOracle (fs : FS) (urlPath : String) : Bool :=
  let p := if pyEndsWith urlPath "/" then pyDropRight urlPath 1 else urlPath
  if p = "" then fs.existsPath "index.html"
  else
    let l := pyLstripSlash p
    if fs.isFile (l ++ ".html") then true
    else if fs.isFile (joinRel l "index.html") then true
    else if fs.existsPath l && fs.isFile l then true
    else false

/-- The amended description: identical except that the `<path>.html` and
`<path>/index.html` probes accept any filesystem entry (`os.path.exists`),
not only regular files. -/
def amendedOracle (fs : FS) (urlPath : String) : Bool :=
  let p := if pyEndsWith urlPath "/" then pyDropRight urlPath 1 else urlPath
  if p = "" then fs.existsPath "index.html"
  else
    let l := pyLstripSlash p
    fs.existsPath (l ++ ".html") || fs.existsPath (joinRel l "index.html")
      || (fs.existsPath l && fs.isFile l)

/-- A transport-level failure (exception/timeout) of one probe. -/
def transportFailed : ProbeResult → Prop
  | .failure _ => True
  | .status _ => False

/-- Deadness exactly as the claim describes it: a transport failure on the
lightweight probe; or a 405 on the lightweight probe followed by a
transport failure or a concluding status ≥ 400 on the full-retrieval
retry; or a non-405 concluding status ≥ 400 on the lightweight probe. -/
def deadSpec (net : NetOracle) (url : String) : Prop :=
  transportFailed (net.head url)
  ∨ (net.head url = .status 405 ∧
      (transportFailed (net.get url) ∨ ∃ c, net.get url = .status c ∧ 400 ≤ c))
  ∨ (∃ c, net.head url = .status c ∧ c ≠ 405 ∧ 400 ≤ c)

/-- The accepted canonical forms exactly as the claim states them: the
parent directory path alone when the filename is the directory's index
document; otherwise the extensionless path plus the literal
`/dir/filename.html` legacy form. -/
def claimAcceptedForms (relPath : String) : List String :=
  if pyEndsWith relPath "index.html" then ["/" ++ pyDirname relPath]
  else ["/" ++ pyDropRight relPath 5, "/" ++ relPath]

/-- The accepted canonical forms as amended: the literal `/`-prefixed file
path is additionally accepted for index documents as well. -/
def acceptedForms (relPath : String) : List String :=
  (if pyEndsWith relPath "index.html" then ["/" ++ pyDirname relPath]
   else ["/" ++ pyDropRight relPath 5])
  ++ ["/" ++ relPath]

/-- The containing page's directory segments relative to the site root
(empty at the root directory). -/
def dirSegsOf (relPath : String) : List String :=
  let d := pyDirname relPath
  if d = "" then [] else sSplit '/' d

/-- Standard `.`/`..` relative resolution as the claim states it: the
href's slash-separated segments are folded, after the directory's
segments, over a stack where a name pushes, `'.'` is skipped and `'..'`
pops (the floor at the site root keeps the stack empty); a trailing
`'.'`/`'..'` denotes the directory itself and contributes a trailing
slash; the result is prefixed with `'/'`. -/
def resolveStd (dirSegs : List String) (href : String) : String :=
  let hrefSegs := sSplit '/' href
  let res := (dirSegs ++ hrefSegs).foldl stepSeg []
  let res := if hrefSegs.getLastD "" = "." || hrefSegs.getLastD "" = ".."
             then res ++ [""] else res
  "/" ++ sJoin '/' res

/-- A good segment: nonempty and slash-free. -/
def goodSeg (s : String) : Prop := s ≠ "" ∧ '/' ∉ s.data

/-- Total penalty contributed by one internal-link occurrence. -/
def internalPenalty (fs : FS) (pg raw : String) : Int :=
  (if pyEndsWith raw ".html" && !((sSplit '/' raw).getLastD "" = "index.html")
   then 2 else 0)
  + (if !(pyStartsWith raw "/") then 2 else 0)
  + (if !check_local_file_exists fs (normalize_local_url raw pg) then 10 else 0)

/-- The same-origin remainder of an href (`baseUrl` prefix stripped,
empty remainder becoming `/`). -/
def strippedHref (baseUrl raw : String) : String :=
  if pyDrop raw (sLength baseUrl) = "" then "/" else pyDrop raw (sLength baseUrl)

/-- Total penalty contributed by one href. -/
def hrefPenalty (fs : FS) (baseUrl pg : String) (raw : String) : Int :=
  if isIgnoredHref raw then 0
  else if is_external raw then
    if baseUrl ≠ "" && pyStartsWith raw baseUrl then
      2 + internalPenalty fs pg (strippedHref baseUrl raw)
    else 0
  else internalPenalty fs pg raw

/-- Inbound-count contribution of one internal-link occurrence to key `p`. -/
def internalInbound (fs : FS) (pg raw p : String) : Nat :=
  if check_local_file_exists fs (normalize_local_url raw pg)
      && decide (cleanPathOf (normalize_local_url raw pg) = p)
  then 1 else 0

/-- Inbound-count contribution of one href to key `p`. -/
def hrefInbound (fs : FS) (baseUrl pg raw p : String) : Nat :=
  if isIgnoredHref raw then 0
  else if is_external raw then
    if baseUrl ≠ "" && pyStartsWith raw baseUrl then
      internalInbound fs pg (strippedHref baseUrl raw) p
    else 0
  else internalInbound fs pg raw p

/-- Whether one href is classified as a plain external link. -/
def hrefExternal (baseUrl raw : String) : Bool :=
  !isIgnoredHref raw && is_external raw && !(baseUrl ≠ "" && pyStartsWith raw baseUrl)

/-- Total penalty contributed by one scanned page. -/
def pagePenalty (fs : FS) (baseUrl : String) (page : PageDoc) : Int :=
  (if page.h1Count = 0 then 5 else 0)
  + (if !page.hasSchema then 2 else 0)
  + (page.hrefs.map (hrefPenalty fs baseUrl page.relPath)).sum

/-- Inbound-count contribution of one scanned page to key `p`. -/
def pageInbound (fs : FS) (baseUrl : String) (page : PageDoc) (p : String) : Nat :=
  (page.hrefs.map fun raw => hrefInbound fs baseUrl page.relPath raw p).sum

/-- The orphan condition of the reconciliation phase, as a function of the
finished inbound histogram only. -/
def isOrphanB (inb : String → Nat) (relPath : String) : Bool :=
  ((if pyEndsWith relPath "index.html" then
      let p := "/" ++ pyDirname relPath
      [if p = "/." then "/" else p]
    else ["/" ++ pyDropRight relPath 5]).map fun p =>
      let p := backslashToSlash p
      if p ≠ "/" && pyEndsWith p "/" then pyDropRight p 1 else p).all
    (fun p => inb p = 0)
  && inb ("/" ++ backslashToSlash relPath) = 0

/-- Penalty contributed by one page in the orphan phase. -/
def orphanPenalty (inb : String → Nat) (relPath : String) : Int :=
  if relPath = "index.html" then 0
  else if isOrphanB inb relPath then 5 else 0

/-- Whether an external URL is classified dead by the checker. -/
def urlDead (net : NetOracle) (url : String) : Bool :=
  400 ≤ (check_one net url).1

/-! ## Shared helper lemmas -/

/-- Composing two floored subtractions with a non-negative second penalty
is one floored subtraction. -/
theorem clamp_clamp (s p q : Int) (hq : 0 ≤ q) :
    max 0 (max 0 (s - p) - q) = max 0 (s - (p + q)) := by omega

theorem takeWhile_eq_self_of {l : List Char} {p : Char → Bool}
    (h : ∀ c ∈ l, p c = true) : l.takeWhile p = l := by
  induction l with
  | nil => rfl
  | cons a t ih => simp [List.takeWhile, h a (by simp), ih fun c hc => h c (by simp [hc])]

/-- `stripQueryFrag` is the identity on strings without `'#'` and `'?'`. -/
theorem stripQueryFrag_eq_self {s : String}
    (h1 : pyContainsChar s '#' = false) (h2 : pyContainsChar s '?' = false) :
    stripQueryFrag s = s := by
  have hm1 : '#' ∉ s.data := by simpa [pyContainsChar] using h1
  have hm2 : '?' ∉ s.data := by simpa [pyContainsChar] using h2
  have e1 : s.data.takeWhile (· ≠ '#') = s.data :=
    takeWhile_eq_self_of fun c hc => by
      simp only [decide_eq_true_eq]
      rintro rfl; exact hm1 hc
  have e2 : s.data.takeWhile (· ≠ '?') = s.data :=
    takeWhile_eq_self_of fun c hc => by
      simp only [decide_eq_true_eq]
      rintro rfl; exact hm2 hc
  unfold stripQueryFrag
  rw [e1, e2]

/-! ## C1: the score invariant -/

theorem applyIssue_score_nonneg (r : AuditResult) (a : IssueApp) (h : 0 ≤ r.score) :
    0 ≤ (applyIssue r a).score := by
  cases a <;> simp [applyIssue, add_error, add_warning, add_info, h]

theorem applyIssue_score (r : AuditResult) (a : IssueApp) (h : 0 ≤ r.score) :
    (applyIssue r a).score = max 0 (r.score - penaltyOf a) := by
  cases a
  · rfl
  · rfl
  · simp only [applyIssue, add_info, penaltyOf]
    omega

theorem sumPenalties_nonneg {l : List IssueApp} (h : ∀ a ∈ l, 0 ≤ penaltyOf a) :
    0 ≤ sumPenalties l := by
  unfold sumPenalties
  induction l with
  | nil => simp
  | cons a t ih =>
    simp only [List.map_cons, List.sum_cons]
    have h1 := h a (by simp)
    have h2 := ih fun x hx => h x (by simp [hx])
    omega

theorem sumPenalties_cons (a : IssueApp) (t : List IssueApp) :
    sumPenalties (a :: t) = penaltyOf a + sumPenalties t := by
  simp [sumPenalties]

/-- Folding Issue applications over any non-negative starting score floors
the subtracted penalty sum exactly once. -/
theorem foldl_applyIssue_score :
    ∀ (l : List IssueApp) (r : AuditResult), 0 ≤ r.score →
      (∀ a ∈ l, 0 ≤ penaltyOf a) →
      (l.foldl applyIssue r).score = max 0 (r.score - sumPenalties l)
  | [], r, hr, _ => by simp [sumPenalties]; omega
  | a :: t, r, hr, h => by
    have ha := h a (by simp)
    have ht : ∀ x ∈ t, 0 ≤ penaltyOf x := fun x hx => h x (by simp [hx])
    rw [List.foldl_cons,
      foldl_applyIssue_score t (applyIssue r a) (applyIssue_score_nonneg r a hr) ht,
      applyIssue_score r a hr, sumPenalties_cons,
      clamp_clamp r.score (penaltyOf a) (sumPenalties t) (sumPenalties_nonneg ht)]

/-- C1: for every run made of Issue applications with non-negative
penalties, the score after any prefix equals `max 0 (100 − Σ penalties so
far)`; consequently it always lies in `[0, 100]`, it never increases as
further Issues are applied, and applying an Info entry never changes it. -/
theorem score_invariant (l : List IssueApp) (h : ∀ a ∈ l, 0 ≤ penaltyOf a) :
    (l.foldl applyIssue initResult).score = max 0 (100 - sumPenalties l) ∧
    0 ≤ (l.foldl applyIssue initResult).score ∧
    (l.foldl applyIssue initResult).score ≤ 100 ∧
    (∀ l2 : List IssueApp, (∀ a ∈ l2, 0 ≤ penaltyOf a) →
      ((l ++ l2).foldl applyIssue initResult).score ≤ (l.foldl applyIssue initResult).score) ∧
    (∀ m : String,
      (applyIssue (l.foldl applyIssue initResult) (.info m)).score
        = (l.foldl applyIssue initResult).score) := by
  have hinit : (0 : Int) ≤ (initResult).score := by simp [initResult]
  have hbase := foldl_applyIssue_score l initResult hinit h
  have hsum := sumPenalties_nonneg h
  have hscore : (initResult).score = 100 := by simp [initResult]
  rw [hscore] at hbase
  refine ⟨hbase, by omega, by omega, ?_, ?_⟩
  · intro l2 h2
    have hr2 : 0 ≤ (l.foldl applyIssue initResult).score := by omega
    rw [List.foldl_append, foldl_applyIssue_score l2 (l.foldl applyIssue initResult) hr2 h2]
    have := sumPenalties_nonneg h2
    omega
  · intro m
    simp [applyIssue, add_info]

theorem score_invariant_witness :
    (∀ a ∈ [IssueApp.err "Missing H1 tag in a.html" 5,
            IssueApp.warn "No Schema (JSON-LD) found in a.html" 2,
            IssueApp.info "note"], 0 ≤ penaltyOf a) ∧
    ([IssueApp.err "Missing H1 tag in a.html" 5,
      IssueApp.warn "No Schema (JSON-LD) found in a.html" 2,
      IssueApp.info "note"].foldl applyIssue initResult).score
      = max 0 (100 - sumPenalties
          [IssueApp.err "Missing H1 tag in a.html" 5,
           IssueApp.warn "No Schema (JSON-LD) found in a.html" 2,
           IssueApp.info "note"]) :=
  ⟨by decide, (score_invariant _ (by decide)).1⟩

/-! ## C4: the file-existence oracle -/

/-- C4 counterexample: with a *directory* named `about.html` at the root,
the code reports `/about` as existing although no file backs any of the
claim's accepted probes, so the claim's description of the oracle is
wrong. -/
theorem oracle_counterexample :
    check_local_file_exists ⟨[], ["about.html"]⟩ "/about" = true ∧
    claimOracle ⟨[], ["about.html"]⟩ "/about" = false := by
  decide

/-- C4 amended: on canonical paths (no query or fragment), the oracle
strips a trailing slash and then returns true by first match among: root
path with the root index document present; `<path>.html` exists (file or
directory); `<path>/index.html` exists (file or directory); an exact
*file* at `<path>`.  With only `about.html` at the root, `/about` and
`/about/` exist and `/missing` does not. -/
theorem oracle_amended :
    (∀ (fs : FS) (p : String), pyContainsChar p '#' = false →
      pyContainsChar p '?' = false →
      check_local_file_exists fs p = amendedOracle fs p) ∧
    check_local_file_exists ⟨["about.html"], []⟩ "/about" = true ∧
    check_local_file_exists ⟨["about.html"], []⟩ "/about/" = true ∧
    check_local_file_exists ⟨["about.html"], []⟩ "/missing" = false := by
  refine ⟨?_, by decide, by decide, by decide⟩
  intro fs p h1 h2
  have chain : ∀ a b c : Bool,
      (if a = true then true else if b = true then true else if c = true then true
        else false) = (a || b || c) := by
    intro a b c
    cases a <;> cases b <;> cases c <;> rfl
  simp only [check_local_file_exists, amendedOracle, stripQueryFrag_eq_self h1 h2]
  by_cases hz : (if pyEndsWith p "/" = true then pyDropRight p 1 else p) = ""
  · rw [if_pos hz, if_pos hz]
  · rw [if_neg hz, if_neg hz, chain]

theorem oracle_amended_witness :
    pyContainsChar "/about" '#' = false ∧ pyContainsChar "/about" '?' = false ∧
    check_local_file_exists ⟨["about.html"], []⟩ "/about"
      = amendedOracle ⟨["about.html"], []⟩ "/about" :=
  ⟨by decide, by decide, oracle_amended.1 ⟨["about.html"], []⟩ "/about" (by decide) (by decide)⟩

/-! ## C7: the external-link checker -/

/-- C7: a probed URL is classified dead (status ≥ 400 in `check_all`) iff
the concluding status is ≥ 400 or a transport failure occurred on either
attempt; on a 405 the checker concludes from the full-retrieval retry
(which therefore actually executes), and otherwise the lightweight probe's
status concludes. -/
theorem external_dead_iff (net : NetOracle) (url : String) :
    (400 ≤ (check_one net url).1 ↔ deadSpec net url) ∧
    ((url, (check_one net url).1) ∈ check_all net [url] ↔ 400 ≤ (check_one net url).1) ∧
    (∀ c, net.head url = .status 405 → net.get url = .status c →
      (check_one net url).1 = c) ∧
    (∀ c, net.head url = .status c → c ≠ 405 → (check_one net url).1 = c) := by
  refine ⟨?_, ?_, ?_, ?_⟩
  · unfold check_one deadSpec
    rcases hh : net.head url with c | e
    · rcases h405 : c == 405 with _ | _
      · have hc : c ≠ 405 := by simpa using h405
        simp [transportFailed, hc, if_neg hc]
      · simp only [beq_iff_eq] at h405
        subst h405
        rcases hg : net.get url with c2 | e2
        · simp [transportFailed, hg]
        · simp [transportFailed, hg]
    · simp [transportFailed]
  · unfold check_all
    rcases hge : decide (400 ≤ (check_one net url).1) with _ | _
    · have := of_decide_eq_false hge
      simp [List.filterMap, if_neg this, this]
    · have := of_decide_eq_true hge
      simp [List.filterMap, if_pos this, this]
  · intro c hh hg
    unfold check_one
    rw [hh]
    simp [hg]
  · intro c hh hc
    unfold check_one
    rw [hh]
    simp [hc]

/-- C7 witness: a URL answering 404 on the lightweight probe is dead, and
one answering 405 on the lightweight probe and 200 on the executed
fallback is alive. -/
theorem external_dead_iff_witness :
    (400 ≤ (check_one ⟨fun _ => .status 404, fun _ => .status 200⟩ "https://u.example").1) ∧
    (check_one ⟨fun _ => .status 405, fun _ => .status 200⟩ "https://u.example").1 = 200 ∧
    ¬ 400 ≤ (check_one ⟨fun _ => .status 405, fun _ => .status 200⟩ "https://u.example").1 :=
  ⟨(external_dead_iff ⟨fun _ => .status 404, fun _ => .status 200⟩ "https://u.example").1.mpr
      (Or.inr (Or.inr ⟨404, rfl, by decide, by decide⟩)),
   (external_dead_iff ⟨fun _ => .status 405, fun _ => .status 200⟩ "https://u.example").2.2.1
      200 rfl rfl,
   by decide⟩

/-! ## C8: the breadcrumb check -/

/-- C8 counterexample: `team.html` is a scanned non-root page without a
breadcrumb marker, yet the code records no Warning for it (the warning is
restricted to "deep" pages whose relative path contains `'/'`). -/
theorem breadcrumb_counterexample :
    (PageDoc.mk "team.html" 1 true false []).relPath ≠ "index.html" ∧
    (PageDoc.mk "team.html" 1 true false []).hasBreadcrumb = false ∧
    (check_breadcrumb (PageDoc.mk "team.html" 1 true false []) initResult).warnings = [] := by
  decide

/-- C8 amended: a scanned non-root page with no breadcrumb marker gets
exactly one penalty-free Warning iff its relative path (with backslashes
normalized) contains a `'/'`, i.e. iff it lies below a subdirectory;
top-level pages and the root `index.html` are exempt. -/
theorem breadcrumb_amended (page : PageDoc) (r : AuditResult)
    (hroot : page.relPath ≠ "index.html") (hmark : page.hasBreadcrumb = false) :
    (pyContainsChar (backslashToSlash page.relPath) '/' = true →
      (check_breadcrumb page r).warnings
        = r.warnings ++ ["No Breadcrumb found in deep page " ++ page.relPath] ∧
      (check_breadcrumb page r).errors = r.errors ∧
      (0 ≤ r.score → (check_breadcrumb page r).score = r.score)) ∧
    (pyContainsChar (backslashToSlash page.relPath) '/' = false →
      check_breadcrumb page r = r) := by
  constructor
  · intro hdeep
    unfold check_breadcrumb
    rw [if_neg hroot, hmark]
    simp only [Bool.false_eq_true, if_false, hdeep, if_true]
    refine ⟨rfl, rfl, fun hs => ?_⟩
    simp only [add_warning]
    omega
  · intro hshallow
    unfold check_breadcrumb
    rw [if_neg hroot, hmark]
    simp [hshallow]

theorem breadcrumb_amended_witness :
    ("blog/post.html" ≠ "index.html") ∧
    (check_breadcrumb (PageDoc.mk "blog/post.html" 1 true false []) initResult).warnings
      = initResult.warnings ++ ["No Breadcrumb found in deep page " ++ "blog/post.html"] :=
  ⟨by decide,
   ((breadcrumb_amended (PageDoc.mk "blog/post.html" 1 true false []) initResult
      (by decide) rfl).1 (by decide)).1⟩

/-! ## C10: degraded mode (empty `baseUrl`) -/

/-- The style checks touch only warnings and score. -/
theorem style_checks_fields (pg : String) (r : AuditResult) (raw : String) :
    (style_checks pg r raw).external_links = r.external_links ∧
    (style_checks pg r raw).errors = r.errors ∧
    (style_checks pg r raw).inbound_links = r.inbound_links ∧
    (style_checks pg r raw).infos = r.infos ∧
    (style_checks pg r raw).pages_scanned = r.pages_scanned := by
  simp only [style_checks, add_warning]
  split <;> split <;> exact ⟨rfl, rfl, rfl, rfl, rfl⟩

/-- Internal-link processing never touches the external-URL set. -/
theorem process_internal_link_externals (fs : FS) (pg : String) (r : AuditResult)
    (raw : String) :
    (process_internal_link fs pg r raw).external_links = r.external_links := by
  simp only [process_internal_link, add_error]
  split
  · exact (style_checks_fields pg r raw).1
  · exact (style_checks_fields pg r raw).1

theorem external_mem_processHref (fs : FS) (bu pg : String) (r : AuditResult)
    (raw u : String) (h : u ∈ r.external_links) :
    u ∈ (processHref fs bu pg r raw).external_links := by
  simp only [processHref]
  split
  · exact h
  · split
    · split
      · rw [process_internal_link_externals]
        exact h
      · simp only [insertExternal]
        split
        · exact h
        · exact List.mem_append_left _ h
    · rw [process_internal_link_externals]
      exact h

theorem external_mem_check_links (fs : FS) (bu pg : String) (u : String) :
    ∀ (hrefs : List String) (r : AuditResult), u ∈ r.external_links →
      u ∈ (check_links fs bu pg r hrefs).external_links
  | [], _, h => h
  | a :: t, r, h =>
    external_mem_check_links fs bu pg u t (processHref fs bu pg r a)
      (external_mem_processHref fs bu pg r a u h)

/-- C10: with an empty configured `baseUrl`, every non-ignored href that
parses with a network authority is handled purely as an external link —
the result is exactly `insertExternal`, so the URL lands in the
external-URL set and no warning, error, or internal resolution happens --
and it stays in the set for the rest of the page's links. -/
theorem degraded_mode_external (fs : FS) (pg : String) (r : AuditResult) (raw : String)
    (hig : isIgnoredHref raw = false) (hext : is_external raw = true) :
    processHref fs "" pg r raw = insertExternal r raw ∧
    raw ∈ (processHref fs "" pg r raw).external_links ∧
    (processHref fs "" pg r raw).warnings = r.warnings ∧
    (processHref fs "" pg r raw).errors = r.errors ∧
    (∀ (pre post : List String),
      raw ∈ (check_links fs "" pg r (pre ++ raw :: post)).external_links) := by
  have hstep : processHref fs "" pg r raw = insertExternal r raw := by
    unfold processHref
    rw [hig, hext]
    simp
  have hmem : ∀ (r' : AuditResult), raw ∈ (processHref fs "" pg r' raw).external_links := by
    intro r'
    have : processHref fs "" pg r' raw = insertExternal r' raw := by
      unfold processHref
      rw [hig, hext]
      simp
    rw [this]
    unfold insertExternal
    split
    · rename_i hc
      simpa using hc
    · simp
  refine ⟨hstep, hmem r, by rw [hstep]; rfl, by rw [hstep]; rfl, ?_⟩
  intro pre post
  unfold check_links
  rw [List.foldl_append, List.foldl_cons]
  exact external_mem_check_links fs "" pg raw post _ (hmem _)

theorem degraded_mode_external_witness :
    isIgnoredHref "https://example.com/blog" = false ∧
    is_external "https://example.com/blog" = true ∧
    processHref ⟨[], []⟩ "" "index.html" initResult "https://example.com/blog"
      = insertExternal initResult "https://example.com/blog" :=
  ⟨by decide, by decide,
   (degraded_mode_external ⟨[], []⟩ "index.html" initResult "https://example.com/blog"
      (by decide) (by decide)).1⟩

/-! ## C2: orphan detection -/

/-- C2 counterexample: `blog/index.html` has, per the claim, the single
accepted form `/blog`; with no positive count under it (the only inbound
count is under the literal `/blog/index.html`) the claim requires the
orphan Warning, yet the code accepts the literal path for index documents
too and records nothing. -/
theorem orphan_counterexample :
    claimAcceptedForms "blog/index.html" = ["/blog"] ∧
    (fun p => if p = "/blog/index.html" then 1 else 0) "/blog" = 0 ∧
    ("blog/index.html" : String) ≠ "index.html" ∧
    (orphanCheckPage
        { initResult with inbound_links := fun p => if p = "/blog/index.html" then 1 else 0 }
        "blog/index.html").warnings = [] := by
  decide

/-- C2 amended: for every non-root discovered page whose relative path is
well formed (no backslashes to rewrite, no `.`-directory artifact, no
trailing-slash artifact in its derived forms), the page is flagged orphan
— one Warning with penalty `P_orphan = 5` — iff the inbound-link mapping
has no positive count under any of its accepted canonical forms, where the
accepted forms are the parent directory path (for an index document) or
the extensionless path (otherwise), *plus in both cases* the literal
`/`-prefixed file path; the root `index.html` is exempt. -/
theorem orphan_amended (r : AuditResult) (relPath : String)
    (hroot : relPath ≠ "index.html")
    (hraw : backslashToSlash relPath = relPath)
    (hd : backslashToSlash ("/" ++ pyDirname relPath) = "/" ++ pyDirname relPath)
    (hs : backslashToSlash ("/" ++ pyDropRight relPath 5) = "/" ++ pyDropRight relPath 5)
    (hdot : "/" ++ pyDirname relPath ≠ "/.")
    (hdsl : ("/" ++ pyDirname relPath) = "/"
      ∨ pyEndsWith ("/" ++ pyDirname relPath) "/" = false)
    (hssl : ("/" ++ pyDropRight relPath 5) = "/"
      ∨ pyEndsWith ("/" ++ pyDropRight relPath 5) "/" = false) :
    orphanCheckPage r relPath =
      if (acceptedForms relPath).all (fun f => r.inbound_links f = 0)
      then add_warning r ("Orphan Page (No inbound links): " ++ relPath) 5
      else r := by
  have hnorm : ∀ p : String, backslashToSlash p = p →
      (p = "/" ∨ pyEndsWith p "/" = false) →
      (if decide (backslashToSlash p ≠ "/") && pyEndsWith (backslashToSlash p) "/"
        then pyDropRight (backslashToSlash p) 1 else backslashToSlash p) = p := by
    intro p hbs hsl
    rw [hbs]
    rcases hsl with hsl | hsl
    · simp [hsl]
    · simp [hsl]
  rcases hidx : pyEndsWith relPath "index.html" with _ | _
  · simp only [orphanCheckPage, acceptedForms, if_neg hroot, hidx, Bool.false_eq_true,
      if_false, List.map_cons, List.map_nil, List.singleton_append,
      hnorm ("/" ++ pyDropRight relPath 5) hs hssl,
      List.all_cons, List.all_nil, hraw, Bool.and_true]
  · simp only [orphanCheckPage, acceptedForms, if_neg hroot, hidx, if_true,
      List.map_cons, List.map_nil, List.singleton_append, if_neg hdot,
      hnorm ("/" ++ pyDirname relPath) hd hdsl,
      List.all_cons, List.all_nil, hraw, Bool.and_true]

theorem orphan_amended_witness :
    ("blog/team.html" ≠ ("index.html" : String)) ∧
    orphanCheckPage initResult "blog/team.html" =
      (if (acceptedForms "blog/team.html").all (fun f => initResult.inbound_links f = 0)
       then add_warning initResult ("Orphan Page (No inbound links): " ++ "blog/team.html") 5
       else initResult) :=
  ⟨by decide,
   orphan_amended initResult "blog/team.html" (by decide) (by decide) (by decide)
     (by decide) (by decide) (by decide) (by decide)⟩

/-! ## C5: same-origin absolute links -/

/-- C5 counterexample: with `baseUrl = "https://example.com"`, the href
`https://example.community/page` parses with authority
`example.community`, which does not match the configured origin, so the
claim requires it to be classified External; but the code compares by
string prefix, takes the same-origin branch (full-URL Warning plus
internal resolution of the remainder `munity/page`), and never adds the
URL to the external set. -/
theorem same_origin_counterexample :
    is_external "https://example.community/page" = true ∧
    schemeNetloc "https://example.community/page" ≠ "https://example.com" ∧
    pyStartsWith "https://example.community/page" "https://example.com" = true ∧
    (check_links ⟨[], []⟩ "https://example.com" "index.html" initResult
        ["https://example.community/page"]).external_links = [] ∧
    (check_links ⟨[], []⟩ "https://example.com" "index.html" initResult
        ["https://example.community/page"]).warnings.length = 2 := by
  decide

/-- C5 amended: a non-ignored href that parses with a network authority is
classified External — added to the external-URL set with nothing else
recorded — unless `baseUrl` is nonempty and the href *string starts with*
`baseUrl` (a plain prefix test, not an exact scheme+authority comparison),
in which case exactly one "internal link using full URL" Warning is
emitted and the href, with the `baseUrl` prefix stripped (an empty
remainder becoming `/`), falls through to internal resolution; the
external set is unchanged in that branch. -/
theorem same_origin_amended (fs : FS) (baseUrl pg : String) (r : AuditResult) (raw : String)
    (hig : isIgnoredHref raw = false) (hext : is_external raw = true) :
    ((baseUrl = "" ∨ pyStartsWith raw baseUrl = false) →
      processHref fs baseUrl pg r raw = insertExternal r raw) ∧
    (baseUrl ≠ "" → pyStartsWith raw baseUrl = true →
      processHref fs baseUrl pg r raw
        = process_internal_link fs pg
            (add_warning r ("Internal link using full URL in " ++ pg ++ ": " ++ raw
              ++ " -> Should be relative/absolute path") 2)
            (if pyDrop raw (sLength baseUrl) = "" then "/"
             else pyDrop raw (sLength baseUrl)) ∧
      (processHref fs baseUrl pg r raw).external_links = r.external_links) := by
  constructor
  · intro hcase
    unfold processHref
    rw [hig, hext]
    rcases hcase with hcase | hcase
    · simp [hcase]
    · simp [hcase]
  · intro hne hpre
    have hcond : (decide (baseUrl ≠ "") && pyStartsWith raw baseUrl) = true := by
      simp [hne, hpre]
    have heq : processHref fs baseUrl pg r raw
        = process_internal_link fs pg
            (add_warning r ("Internal link using full URL in " ++ pg ++ ": " ++ raw
              ++ " -> Should be relative/absolute path") 2)
            (if pyDrop raw (sLength baseUrl) = "" then "/"
             else pyDrop raw (sLength baseUrl)) := by
      unfold processHref
      rw [hig, hext]
      simp only [Bool.false_eq_true, if_false, if_true, hcond]
    refine ⟨heq, ?_⟩
    rw [heq, process_internal_link_externals]
    rfl

theorem same_origin_amended_witness :
    isIgnoredHref "https://example.com/blog" = false ∧
    is_external "https://example.com/blog" = true ∧
    ("https://example.com" : String) ≠ "" ∧
    pyStartsWith "https://example.com/blog" "https://example.com" = true ∧
    (processHref ⟨[], []⟩ "https://example.com" "index.html" initResult
        "https://example.com/blog").external_links = initResult.external_links :=
  ⟨by decide, by decide, by decide, by decide,
   ((same_origin_amended ⟨[], []⟩ "https://example.com" "index.html" initResult
      "https://example.com/blog" (by decide) (by decide)).2 (by decide) (by decide)).2⟩

/-! ## C6: per-occurrence dead-link errors and inbound counting -/

/-- Error-list characterization of one internal-link occurrence. -/
theorem pil_errors (fs : FS) (pg : String) (r : AuditResult) (raw : String) :
    (process_internal_link fs pg r raw).errors
      = if check_local_file_exists fs (normalize_local_url raw pg) = false
        then r.errors ++ ["Dead Internal Link in " ++ pg ++ ": " ++ raw
          ++ " (Resolves to " ++ normalize_local_url raw pg ++ ")"]
        else r.errors := by
  simp only [process_internal_link, add_error]
  rcases hc : check_local_file_exists fs (normalize_local_url raw pg) with _ | _
  · simp [hc, (style_checks_fields pg r raw).2.1]
  · simp [hc, (style_checks_fields pg r raw).2.1]

/-- Inbound-histogram characterization of one internal-link occurrence. -/
theorem pil_inbound (fs : FS) (pg : String) (r : AuditResult) (raw : String) :
    (process_internal_link fs pg r raw).inbound_links
      = if check_local_file_exists fs (normalize_local_url raw pg) = true
        then bumpInbound r.inbound_links (cleanPathOf (normalize_local_url raw pg))
        else r.inbound_links := by
  simp only [process_internal_link, add_error]
  rcases hc : check_local_file_exists fs (normalize_local_url raw pg) with _ | _
  · simp [hc, (style_checks_fields pg r raw).2.2.1]
  · simp [hc, (style_checks_fields pg r raw).2.2.1]

/-- Score characterization of one internal-link occurrence: the dead-link
penalty 10 applies on top of the style checks. -/
theorem pil_score (fs : FS) (pg : String) (r : AuditResult) (raw : String) :
    (process_internal_link fs pg r raw).score
      = if check_local_file_exists fs (normalize_local_url raw pg) = false
        then max 0 ((style_checks pg r raw).score - 10)
        else (style_checks pg r raw).score := by
  simp only [process_internal_link, add_error]
  rcases hc : check_local_file_exists fs (normalize_local_url raw pg) with _ | _
  · simp [hc]
  · simp [hc]

theorem foldl_pil_errors_len (fs : FS) (pg : String) :
    ∀ (raws : List String) (r : AuditResult),
      ((raws.foldl (process_internal_link fs pg) r).errors).length
        = r.errors.length
          + (raws.filter fun raw =>
              !check_local_file_exists fs (normalize_local_url raw pg)).length
  | [], r => by simp
  | a :: t, r => by
    rw [List.foldl_cons, foldl_pil_errors_len fs pg t (process_internal_link fs pg r a)]
    rw [pil_errors]
    rcases hc : check_local_file_exists fs (normalize_local_url a pg) with _ | _
    · simp [hc]
      omega
    · simp [hc]

theorem foldl_pil_inbound (fs : FS) (pg : String) :
    ∀ (raws : List String) (r : AuditResult) (p : String),
      (raws.foldl (process_internal_link fs pg) r).inbound_links p
        = r.inbound_links p
          + (raws.filter fun raw =>
              check_local_file_exists fs (normalize_local_url raw pg)
                && decide (cleanPathOf (normalize_local_url raw pg) = p)).length
  | [], r, p => by simp
  | a :: t, r, p => by
    rw [List.foldl_cons, foldl_pil_inbound fs pg t (process_internal_link fs pg r a) p]
    rw [pil_inbound]
    rcases hc : check_local_file_exists fs (normalize_local_url a pg) with _ | _
    · simp [hc]
    · rw [if_pos rfl]
      simp only [bumpInbound]
      rcases hp : decide (cleanPathOf (normalize_local_url a pg) = p) with _ | _
      · have hp' := of_decide_eq_false hp
        rw [if_neg fun hh => hp' hh.symm]
        simp [List.filter_cons, hc, hp]
      · have hp' := of_decide_eq_true hp
        rw [if_pos hp'.symm]
        simp [List.filter_cons, hc, hp]
        omega

/-- C6: each occurrence of an internal href whose resolved canonical path
is missing yields exactly its own Error (the dead-link message, penalty 10
beyond the style checks) and leaves the histogram untouched; each
occurrence whose target exists adds no Error and increments exactly the
count of its cleaned canonical path by one; over any sequence of
occurrences (from the same page or, by composing runs, different pages),
the number of Errors added equals the number of dead occurrences and each
histogram entry grows by the number of existing occurrences resolving to
it — with no deduplication anywhere. -/
theorem dead_internal_per_occurrence (fs : FS) (pg : String) (r : AuditResult) (raw : String) :
    (check_local_file_exists fs (normalize_local_url raw pg) = false →
      (process_internal_link fs pg r raw).errors
        = r.errors ++ ["Dead Internal Link in " ++ pg ++ ": " ++ raw
            ++ " (Resolves to " ++ normalize_local_url raw pg ++ ")"] ∧
      (process_internal_link fs pg r raw).inbound_links = r.inbound_links ∧
      (process_internal_link fs pg r raw).score
        = max 0 ((style_checks pg r raw).score - 10)) ∧
    (check_local_file_exists fs (normalize_local_url raw pg) = true →
      (process_internal_link fs pg r raw).errors = r.errors ∧
      (process_internal_link fs pg r raw).inbound_links
          (cleanPathOf (normalize_local_url raw pg))
        = r.inbound_links (cleanPathOf (normalize_local_url raw pg)) + 1 ∧
      (∀ p, p ≠ cleanPathOf (normalize_local_url raw pg) →
        (process_internal_link fs pg r raw).inbound_links p = r.inbound_links p)) ∧
    (∀ raws : List String,
      ((raws.foldl (process_internal_link fs pg) r).errors).length
        = r.errors.length
          + (raws.filter fun raw =>
              !check_local_file_exists fs (normalize_local_url raw pg)).length ∧
      (∀ p, (raws.foldl (process_internal_link fs pg) r).inbound_links p
        = r.inbound_links p
          + (raws.filter fun raw =>
              check_local_file_exists fs (normalize_local_url raw pg)
                && decide (cleanPathOf (normalize_local_url raw pg) = p)).length)) := by
  refine ⟨fun hdead => ⟨?_, ?_, ?_⟩, fun hlive => ⟨?_, ?_, ?_⟩,
    fun raws => ⟨foldl_pil_errors_len fs pg raws r, fun p => foldl_pil_inbound fs pg raws r p⟩⟩
  · rw [pil_errors, if_pos hdead]
  · rw [pil_inbound, hdead]
    simp
  · rw [pil_score, if_pos hdead]
  · rw [pil_errors, hlive]
    simp
  · rw [pil_inbound, if_pos hlive]
    simp [bumpInbound]
  · intro p hp
    rw [pil_inbound, if_pos hlive]
    simp only [bumpInbound]
    rw [if_neg hp]

theorem dead_internal_per_occurrence_witness :
    check_local_file_exists ⟨["about.html"], []⟩
        (normalize_local_url "/missing" "index.html") = false ∧
    ((["/missing", "/missing"].foldl
        (process_internal_link ⟨["about.html"], []⟩ "index.html") initResult).errors).length
      = initResult.errors.length
        + ((["/missing", "/missing"].filter fun raw =>
            !check_local_file_exists ⟨["about.html"], []⟩
              (normalize_local_url raw "index.html")).length) ∧
    check_local_file_exists ⟨["about.html"], []⟩
        (normalize_local_url "/about" "index.html") = true ∧
    (process_internal_link ⟨["about.html"], []⟩ "index.html" initResult "/about").inbound_links
        (cleanPathOf (normalize_local_url "/about" "index.html"))
      = initResult.inbound_links (cleanPathOf (normalize_local_url "/about" "index.html")) + 1 :=
  ⟨by decide,
   ((dead_internal_per_occurrence ⟨["about.html"], []⟩ "index.html" initResult
      "/missing").2.2 ["/missing", "/missing"]).1,
   by decide,
   ((dead_internal_per_occurrence ⟨["about.html"], []⟩ "index.html" initResult
      "/about").2.1 (by decide)).2.1⟩

/-! ## C3: the URL resolver -/

theorem splitCh_ne_nil (c : Char) : ∀ l : List Char, splitCh c l ≠ []
  | [] => by simp [splitCh]
  | x :: xs => by
    simp only [splitCh]
    split
    · simp
    · have := splitCh_ne_nil c xs
      split
      · simp
      · simp

theorem splitCh_cons_eq (c x : Char) (xs : List Char) (hx : x = c) :
    splitCh c (x :: xs) = [] :: splitCh c xs := by
  simp [splitCh, hx]

theorem splitCh_cons_ne (c x : Char) (xs : List Char) (y : List Char) (ys : List (List Char))
    (h : splitCh c xs = y :: ys) (hx : x ≠ c) :
    splitCh c (x :: xs) = (x :: y) :: ys := by
  simp only [splitCh, if_neg hx, h]

theorem splitCh_append_self (c : Char) : ∀ l : List Char,
    splitCh c (l ++ [c]) = splitCh c l ++ [[]]
  | [] => by simp [splitCh]
  | x :: xs => by
    by_cases hx : x = c
    · rw [List.cons_append, splitCh_cons_eq c x _ hx, splitCh_cons_eq c x xs hx,
        splitCh_append_self c xs]
      rfl
    · rcases hs : splitCh c xs with _ | ⟨y, ys⟩
      · exact absurd hs (splitCh_ne_nil c xs)
      · have h2 : splitCh c (xs ++ [c]) = y :: (ys ++ [[]]) := by
          rw [splitCh_append_self c xs, hs]
          rfl
        rw [List.cons_append, splitCh_cons_ne c x _ y (ys ++ [[]]) h2 hx,
          splitCh_cons_ne c x xs y ys hs hx]
        rfl

/-- No piece produced by `splitCh c` contains `c`. -/
theorem splitCh_not_mem (c : Char) : ∀ (l : List Char), ∀ s ∈ splitCh c l, c ∉ s
  | [], s, hs => by
    simp only [splitCh, List.mem_singleton] at hs
    subst hs
    simp
  | x :: xs, s, hs => by
    by_cases hx : x = c
    · rw [splitCh_cons_eq c x xs hx] at hs
      rcases List.mem_cons.mp hs with h | h
      · subst h
        simp
      · exact splitCh_not_mem c xs s h
    · rcases hrec : splitCh c xs with _ | ⟨y, ys⟩
      · exact absurd hrec (splitCh_ne_nil c xs)
      · rw [splitCh_cons_ne c x xs y ys hrec hx] at hs
        rcases List.mem_cons.mp hs with h | h
        · subst h
          intro hmem
          rcases List.mem_cons.mp hmem with h | h
          · exact hx h.symm
          · exact splitCh_not_mem c xs y (by rw [hrec]; exact List.mem_cons_self y ys) h
        · exact splitCh_not_mem c xs s (by rw [hrec]; exact List.mem_cons_of_mem y h)

/-- `("/" ++ d ++ "/").split('/') = [""] ++ d.split('/') ++ [""]`. -/
theorem sSplit_base (relDir : String) :
    sSplit '/' ("/" ++ relDir ++ "/") = "" :: sSplit '/' relDir ++ [""] := by
  have hdata : ("/" ++ relDir ++ "/").data = '/' :: (relDir.data ++ ['/']) := by
    rw [String.data_append, String.data_append]
    rfl
  unfold sSplit
  rw [hdata]
  simp only [splitCh, if_pos rfl, splitCh_append_self '/' relDir.data]
  simp

/-- The sentinel relation: folding from the stack `"" :: acc` either keeps
the sentinel below the fold of `acc` or the fold has popped it. -/
theorem foldl_stepSeg_sentinel : ∀ (L : List String) (acc : List String),
    L.foldl stepSeg ("" :: acc) = "" :: L.foldl stepSeg acc ∨
    L.foldl stepSeg ("" :: acc) = L.foldl stepSeg acc
  | [], _ => Or.inl rfl
  | seg :: t, acc => by
    rw [List.foldl_cons, List.foldl_cons]
    by_cases hdd : seg = ".."
    · subst hdd
      simp only [stepSeg, if_pos rfl]
      rcases acc with _ | ⟨a, as⟩
      · right
        rfl
      · rw [List.dropLast_cons₂]
        exact foldl_stepSeg_sentinel t ((a :: as).dropLast)
    · by_cases hd : seg = "."
      · subst hd
        simp only [stepSeg, if_neg (by decide : ("." : String) ≠ ".."), if_pos rfl]
        exact foldl_stepSeg_sentinel t acc
      · simp only [stepSeg, if_neg hdd, if_neg hd, List.cons_append]
        exact foldl_stepSeg_sentinel t (acc ++ [seg])

/-- Folding good segments over a good stack keeps the stack good. -/
theorem foldl_stepSeg_good : ∀ (L acc : List String),
    (∀ s ∈ L, goodSeg s) → (∀ s ∈ acc, goodSeg s) →
    ∀ s ∈ L.foldl stepSeg acc, goodSeg s
  | [], _, _, hacc, s, hs => hacc s hs
  | seg :: t, acc, hL, hacc, s, hs => by
    rw [List.foldl_cons] at hs
    refine foldl_stepSeg_good t (stepSeg acc seg)
      (fun x hx => hL x (by simp [hx])) ?_ s hs
    intro x hx
    unfold stepSeg at hx
    split at hx
    · exact hacc x (List.dropLast_subset _ hx)
    · split at hx
      · exact hacc x hx
      · rcases List.mem_append.mp hx with hx | hx
        · exact hacc x hx
        · rw [List.mem_singleton.mp hx]
          exact hL seg (by simp)

theorem getLastD_append_cons (A : List α) (b : α) (B : List α) (d : α) :
    (A ++ b :: B).getLastD d = (b :: B).getLastD d := by
  induction A with
  | nil => rfl
  | cons a as ih =>
    rw [List.cons_append]
    rcases hz : as ++ b :: B with _ | ⟨z, zs⟩
    · exact absurd hz (by simp)
    · simp only [List.getLastD_cons, hz] at ih ⊢
      exact ih

theorem refPath_eq_self {u : String}
    (h4 : pyContainsChar u '?' = false) (h5 : pyContainsChar u '#' = false) :
    refPath u = u := by
  have hm4 : '?' ∉ u.data := by simpa [pyContainsChar] using h4
  have hm5 : '#' ∉ u.data := by simpa [pyContainsChar] using h5
  unfold refPath
  rw [takeWhile_eq_self_of]
  intro c hc
  simp only [Bool.not_eq_true', Bool.or_eq_false_iff, decide_eq_false_iff_not]
  constructor
  · rintro rfl; exact hm4 hc
  · rintro rfl; exact hm5 hc

theorem str_ne_empty {s : String} (h : s.data ≠ []) : s ≠ "" := by
  intro he
  exact h (congrArg String.data he)

theorem dropLast_append_getLastD : ∀ (qs : List String) (q d : String),
    (q :: qs).dropLast ++ [(q :: qs).getLastD d] = q :: qs
  | [], _, _ => rfl
  | z :: zs, q, d => by
    rw [List.dropLast_cons₂, List.getLastD_cons, List.cons_append,
      dropLast_append_getLastD zs z q]

theorem sJoin_cons_data (a : String) (l : List String) :
    ∃ t, (sJoin '/' (a :: l)).data = a.data ++ t := by
  cases l with
  | nil => exact ⟨[], by simp [sJoin]⟩
  | cons b bs =>
    refine ⟨'/' :: (sJoin '/' (b :: bs)).data, ?_⟩
    show (a ++ String.mk ['/'] ++ sJoin '/' (b :: bs)).data = _
    rw [String.data_append, String.data_append]
    simp

theorem empty_append_str (s : String) : "" ++ s = s := by
  cases s
  rfl

/-- The final step shared by both relations: Python's empty-join /
leading-slash fixups against the claim's plain `'/'` prefix. -/
theorem finish_python_vs_std (pyres stdres : List String)
    (hrel : pyres = "" :: stdres ∨ pyres = stdres)
    (hshape : stdres = [] ∨ ∃ X y, stdres = X ++ [y] ∧ (∀ s ∈ X, goodSeg s)
      ∧ (y = "" ∨ goodSeg y)) :
    (if sJoin '/' pyres = "" then "/"
     else if pyStartsWith (sJoin '/' pyres) "/" = true then sJoin '/' pyres
     else "/" ++ sJoin '/' pyres)
      = "/" ++ sJoin '/' stdres := by
  rcases hrel with hrel | hrel
  · subst hrel
    rcases stdres with _ | ⟨z, zs⟩
    · decide
    · have hj : sJoin '/' ("" :: z :: zs) = "/" ++ sJoin '/' (z :: zs) := by
        show "" ++ String.mk ['/'] ++ sJoin '/' (z :: zs) = _
        rw [empty_append_str]
      rw [hj]
      have hdata : ("/" ++ sJoin '/' (z :: zs)).data = '/' :: (sJoin '/' (z :: zs)).data := by
        rw [String.data_append]
        rfl
      rw [if_neg (str_ne_empty (by rw [hdata]; simp))]
      rw [if_pos (by unfold pyStartsWith; rw [hdata]; simp [List.isPrefixOf])]
  · subst hrel
    rcases hshape with hshape | ⟨X, y, hXy, hX, hy⟩
    · subst hshape
      decide
    · subst hXy
      rcases X with _ | ⟨a, as⟩
      · rcases hy with hy | hy
        · subst hy
          decide
        · have hdy : y.data ≠ [] := fun hh => hy.1 (by cases y; cases hh; rfl)
          have hjy : sJoin '/' ([] ++ [y]) = y := rfl
          rw [hjy, if_neg hy.1, if_neg ?hsw]
          case hsw =>
            unfold pyStartsWith
            rcases hd : y.data with _ | ⟨ch, rest⟩
            · exact absurd hd hdy
            · have hch : ch ≠ '/' := by
                intro hc
                exact hy.2 (by rw [hd, hc]; simp)
              simp [List.isPrefixOf, Ne.symm hch]
      · obtain ⟨t, ht⟩ := sJoin_cons_data a (as ++ [y])
        have ha := hX a (by simp)
        have hda : a.data ≠ [] := fun hh => ha.1 (by cases a; cases hh; rfl)
        rcases hd : a.data with _ | ⟨ch, rest⟩
        · exact absurd hd hda
        · have hch : ch ≠ '/' := by
            intro hc
            exact ha.2 (by rw [hd, hc]; simp)
          have hjd : (sJoin '/' (a :: as ++ [y])).data = ch :: (rest ++ t) := by
            rw [List.cons_append, ht, hd]
            rfl
          rw [if_neg (str_ne_empty (by rw [hjd]; simp))]
          rw [if_neg ?hsw2]
          case hsw2 =>
            unfold pyStartsWith
            rw [hjd]
            simp [List.isPrefixOf, Ne.symm hch]

theorem sSplit_ne_nil (c : Char) (s : String) : sSplit c s ≠ [] := by
  unfold sSplit
  intro h
  exact splitCh_ne_nil c s.data (List.map_eq_nil_iff.mp h)

theorem sSplit_no_slash (x : String) : ∀ s ∈ sSplit '/' x, '/' ∉ s.data := by
  intro s hs
  unfold sSplit at hs
  obtain ⟨piece, hpiece, rfl⟩ := List.mem_map.mp hs
  exact splitCh_not_mem '/' x.data piece hpiece

theorem getLastD_mem_cons : ∀ (qs : List String) (q d : String),
    (q :: qs).getLastD d ∈ q :: qs
  | [], _, _ => by simp
  | z :: zs, q, d => by
    rw [List.getLastD_cons]
    exact List.mem_cons_of_mem q (getLastD_mem_cons zs z q)

theorem getLastD_concat (A : List String) (b d : String) :
    (A ++ [b]).getLastD d = b := by
  rw [getLastD_append_cons A b [] d]
  rfl

/-- The filtered directory split gives exactly the directory segments. -/
theorem filter_dirname_split (relPath : String)
    (hd2 : ∀ s ∈ dirSegsOf relPath, s ≠ "") :
    (sSplit '/' (pyDirname relPath)).filter (fun s => s ≠ "") = dirSegsOf relPath := by
  unfold dirSegsOf
  by_cases hdd : pyDirname relPath = ""
  · rw [if_pos hdd, hdd]
    decide
  · rw [if_neg hdd]
    refine List.filter_eq_self.mpr fun a ha => ?_
    have : a ≠ "" := hd2 a (by unfold dirSegsOf; rw [if_neg hdd]; exact ha)
    simp [this]

/-- The directory segments of a well-formed page path are good. -/
theorem dirSegsOf_good (relPath : String)
    (hd2 : ∀ s ∈ dirSegsOf relPath, s ≠ "") :
    ∀ s ∈ dirSegsOf relPath, goodSeg s := by
  intro s hs
  refine ⟨hd2 s hs, ?_⟩
  unfold dirSegsOf at hs
  by_cases hdd : pyDirname relPath = ""
  · rw [if_pos hdd] at hs
    exact absurd hs (List.not_mem_nil s)
  · rw [if_neg hdd] at hs
    exact sSplit_no_slash (pyDirname relPath) s hs

/-- Shape of the claim-side stack after the final segment and the
trailing-slash marker: empty, or a good prefix with one last element that
is either empty or itself good. -/
theorem stdStack_shape (L' : List String) (lastSeg : String)
    (hgood : ∀ s ∈ L', goodSeg s) (hslash : '/' ∉ lastSeg.data)
    (t : List String)
    (htv : t = if lastSeg = "." || lastSeg = ".." then [""] else []) :
    stepSeg (L'.foldl stepSeg []) lastSeg ++ t = [] ∨
    ∃ X y, stepSeg (L'.foldl stepSeg []) lastSeg ++ t = X ++ [y] ∧
      (∀ s ∈ X, goodSeg s) ∧ (y = "" ∨ goodSeg y) := by
  right
  have hS0 : ∀ s ∈ L'.foldl stepSeg [], goodSeg s :=
    foldl_stepSeg_good L' [] hgood (by simp)
  by_cases hdd : lastSeg = ".."
  · refine ⟨(L'.foldl stepSeg []).dropLast, "",
      ?_, fun s hs => hS0 s (List.dropLast_subset _ hs), Or.inl rfl⟩
    rw [htv, hdd]
    simp [stepSeg]
  · by_cases hd : lastSeg = "."
    · refine ⟨L'.foldl stepSeg [], "", ?_, hS0, Or.inl rfl⟩
      rw [htv, hd]
      simp [stepSeg]
    · refine ⟨L'.foldl stepSeg [], lastSeg, ?_, hS0, ?_⟩
      · rw [htv]
        simp [stepSeg, hdd, hd]
      · by_cases he : lastSeg = ""
        · exact Or.inl he
        · exact Or.inr ⟨he, hslash⟩

/-- C3: for every page-relative href — one not starting with `'/'`, with
no scheme or parameter separators, no query or fragment, nonempty, and
with no empty segment except possibly a trailing one — on a page whose
directory path is well formed (not `"."`, segments nonempty), the
resolver joins the href onto the containing page's directory using
standard `.`/`..` resolution and prefixes `'/'`; and any href starting
with `'/'` is returned unchanged. -/
theorem resolver_standard (relPath href : String)
    (h1 : pyStartsWith href "/" = false)
    (_h2 : pyContainsChar href ':' = false)
    (_h3 : pyContainsChar href ';' = false)
    (h4 : pyContainsChar href '?' = false)
    (h5 : pyContainsChar href '#' = false)
    (h6 : href ≠ "")
    (h7 : ∀ s ∈ (sSplit '/' href).dropLast, s ≠ "")
    (hd1 : pyDirname relPath ≠ ".")
    (hd2 : ∀ s ∈ dirSegsOf relPath, s ≠ "") :
    normalize_local_url href relPath = resolveStd (dirSegsOf relPath) href ∧
    (∀ u : String, pyStartsWith u "/" = true → normalize_local_url u relPath = u) := by
  constructor
  case right =>
    intro u hu
    unfold normalize_local_url
    rw [hu]
    simp
  case left =>
  rcases hq : sSplit '/' href with _ | ⟨q, qs⟩
  · exact absurd hq (sSplit_ne_nil '/' href)
  have hfilterDrop :
      ((q :: qs).dropLast).filter (fun s => s ≠ "") = (q :: qs).dropLast := by
    refine List.filter_eq_self.mpr fun a ha => ?_
    have : a ≠ "" := h7 a (by rw [hq]; exact ha)
    simp [this]
  -- reduce the code side
  unfold normalize_local_url
  rw [h1]
  simp only [Bool.false_eq_true, if_false]
  rw [if_neg hd1]
  simp only [urljoinDummyPath]
  rw [if_neg h6, refPath_eq_self h4 h5, if_neg h6]
  rw [sSplit_base (pyDirname relPath)]
  rw [getLastD_concat ("" :: sSplit '/' (pyDirname relPath)) "" ""]
  simp only [ne_eq, not_true_eq_false, if_false, hq]
  have hsegments :
      (("" :: sSplit '/' (pyDirname relPath)) ++ [""]) ++ q :: qs
        = "" :: ((sSplit '/' (pyDirname relPath) ++ [""]) ++ q :: qs) := by
    simp
  rw [hsegments]
  simp only [List.headD_cons, List.getLastD_cons, List.drop_succ_cons, List.drop_zero]
  rw [getLastD_append_cons (sSplit '/' (pyDirname relPath) ++ [""]) q qs ""]
  rw [List.dropLast_append_cons]
  rw [List.filter_append, List.filter_append, filter_dirname_split relPath hd2, hfilterDrop]
  have hfilterEmpty : ([""] : List String).filter (fun s => s ≠ "") = [] := by decide
  rw [hfilterEmpty, List.append_nil]
  have hassemble :
      ("" :: (dirSegsOf relPath ++ (q :: qs).dropLast)) ++ [(q :: qs).getLastD ""]
        = "" :: (dirSegsOf relPath ++ q :: qs) := by
    rw [List.cons_append, List.append_assoc, dropLast_append_getLastD qs q ""]
  rw [hassemble]
  rw [List.foldl_cons]
  have hstep0 : stepSeg [] "" = [""] := by decide
  rw [hstep0]
  -- reduce the claim side
  simp only [resolveStd]
  rw [hq]
  -- common abbreviations via plain hypotheses
  have hrel := foldl_stepSeg_sentinel (dirSegsOf relPath ++ q :: qs) []
  have hsplitL : dirSegsOf relPath ++ q :: qs
      = (dirSegsOf relPath ++ (q :: qs).dropLast) ++ [(q :: qs).getLastD ""] := by
    rw [List.append_assoc, dropLast_append_getLastD qs q ""]
  have hgoodL : ∀ s ∈ dirSegsOf relPath ++ (q :: qs).dropLast, goodSeg s := by
    intro s hs
    rcases List.mem_append.mp hs with hs | hs
    · exact dirSegsOf_good relPath hd2 s hs
    · refine ⟨h7 s (by rw [hq]; exact hs), ?_⟩
      exact sSplit_no_slash href s (by rw [hq]; exact List.dropLast_subset _ hs)
  have hlastslash : '/' ∉ ((q :: qs).getLastD "").data :=
    sSplit_no_slash href _ (by rw [hq]; exact getLastD_mem_cons qs q "")
  rcases hcond : ((q :: qs).getLastD "" = "." || (q :: qs).getLastD "" = "..")
    with _ | _
  · simp only [hcond, Bool.false_eq_true, if_false]
    refine finish_python_vs_std _ _ hrel ?_
    have := stdStack_shape (dirSegsOf relPath ++ (q :: qs).dropLast)
      ((q :: qs).getLastD "") hgoodL hlastslash [] (by rw [hcond]; rfl)
    rw [List.append_nil] at this
    rw [hsplitL, List.foldl_append, List.foldl_cons, List.foldl_nil]
    exact this
  · simp only [hcond, if_true]
    have hshape := stdStack_shape (dirSegsOf relPath ++ (q :: qs).dropLast)
      ((q :: qs).getLastD "") hgoodL hlastslash [""] (by rw [hcond]; rfl)
    have hfold : (dirSegsOf relPath ++ q :: qs).foldl stepSeg []
        = stepSeg ((dirSegsOf relPath ++ (q :: qs).dropLast).foldl stepSeg [])
            ((q :: qs).getLastD "") := by
      rw [hsplitL, List.foldl_append, List.foldl_cons, List.foldl_nil]
    refine finish_python_vs_std _ _ ?_ ?_
    · rcases hrel with hrel | hrel
      · left
        rw [hrel]
        rfl
      · right
        rw [hrel]
    · rw [hfold]
      exact hshape

theorem resolver_standard_witness :
    pyStartsWith "../about" "/" = false ∧
    pyContainsChar "../about" ':' = false ∧
    ("../about" : String) ≠ "" ∧
    (∀ s ∈ (sSplit '/' "../about").dropLast, s ≠ "") ∧
    pyDirname "blog/index.html" ≠ "." ∧
    (∀ s ∈ dirSegsOf "blog/index.html", s ≠ "") ∧
    normalize_local_url "../about" "blog/index.html" = "/about" ∧
    normalize_local_url "/about" "blog/index.html" = "/about" :=
  ⟨by decide, by decide, by decide, by decide, by decide, by decide,
   ((resolver_standard "blog/index.html" "../about" (by decide) (by decide) (by decide)
      (by decide) (by decide) (by decide) (by decide) (by decide) (by decide)).1).trans
     (by decide),
   (resolver_standard "blog/index.html" "../about" (by decide) (by decide) (by decide)
      (by decide) (by decide) (by decide) (by decide) (by decide) (by decide)).2
     "/about" (by decide)⟩

/-! ## C9: determinism and order-independence

Summary functions describing, per page and per link, the penalty, the
inbound-count contribution and the external classification that one
processing step adds; they are proved below to characterize the code's
folds, and they are manifestly independent of processing order. -/

/-! ### Non-negativity of the penalty summaries -/

theorem internalPenalty_nonneg (fs : FS) (pg raw : String) :
    0 ≤ internalPenalty fs pg raw := by
  unfold internalPenalty
  split <;> split <;> split <;> omega

theorem hrefPenalty_nonneg (fs : FS) (baseUrl pg raw : String) :
    0 ≤ hrefPenalty fs baseUrl pg raw := by
  unfold hrefPenalty
  have h1 := internalPenalty_nonneg fs pg (strippedHref baseUrl raw)
  have h2 := internalPenalty_nonneg fs pg raw
  split
  · omega
  · split
    · split <;> omega
    · omega

theorem pagePenalty_nonneg (fs : FS) (baseUrl : String) (page : PageDoc) :
    0 ≤ pagePenalty fs baseUrl page := by
  unfold pagePenalty
  have hsum : 0 ≤ (page.hrefs.map (hrefPenalty fs baseUrl page.relPath)).sum := by
    refine List.sum_nonneg fun x hx => ?_
    obtain ⟨raw, -, rfl⟩ := List.mem_map.mp hx
    exact hrefPenalty_nonneg fs baseUrl page.relPath raw
  split <;> split <;> omega

theorem orphanPenalty_nonneg (inb : String → Nat) (relPath : String) :
    0 ≤ orphanPenalty inb relPath := by
  unfold orphanPenalty
  split
  · omega
  · split <;> omega

/-! ### Score characterizations -/

theorem style_checks_score (pg : String) (r : AuditResult) (raw : String)
    (h : 0 ≤ r.score) :
    (style_checks pg r raw).score
      = max 0 (r.score
        - ((if pyEndsWith raw ".html" && !((sSplit '/' raw).getLastD "" = "index.html")
            then 2 else 0)
          + (if !(pyStartsWith raw "/") then 2 else 0))) := by
  unfold style_checks add_warning
  split <;> split <;> simp <;> omega

theorem pil_score_total (fs : FS) (pg : String) (r : AuditResult) (raw : String)
    (h : 0 ≤ r.score) :
    (process_internal_link fs pg r raw).score
      = max 0 (r.score - internalPenalty fs pg raw) := by
  rw [pil_score, style_checks_score pg r raw h]
  unfold internalPenalty
  rcases hA : (pyEndsWith raw ".html" && !((sSplit '/' raw).getLastD "" = "index.html"))
    with _ | _ <;>
  rcases hB : !(pyStartsWith raw "/") with _ | _ <;>
  rcases hc : check_local_file_exists fs (normalize_local_url raw pg) with _ | _ <;>
  simp [hA, hB, hc] <;> omega

theorem style_checks_score_nonneg (pg : String) (r : AuditResult) (raw : String)
    (h : 0 ≤ r.score) : 0 ≤ (style_checks pg r raw).score := by
  rw [style_checks_score pg r raw h]
  omega

theorem pil_score_nonneg (fs : FS) (pg : String) (r : AuditResult) (raw : String)
    (h : 0 ≤ r.score) : 0 ≤ (process_internal_link fs pg r raw).score := by
  rw [pil_score_total fs pg r raw h]
  omega

theorem processHref_score (fs : FS) (bu pg : String) (r : AuditResult) (raw : String)
    (h : 0 ≤ r.score) :
    (processHref fs bu pg r raw).score = max 0 (r.score - hrefPenalty fs bu pg raw) := by
  simp only [processHref]
  unfold hrefPenalty
  split
  · omega
  · split
    · split
      · rw [show (if pyDrop raw (sLength bu) = "" then "/" else pyDrop raw (sLength bu))
            = strippedHref bu raw from rfl]
        rw [pil_score_total fs pg _ (strippedHref bu raw)
          (by simp only [add_warning]; omega)]
        simp only [add_warning]
        have := internalPenalty_nonneg fs pg (strippedHref bu raw)
        omega
      · simp only [insertExternal]
        omega
    · exact pil_score_total fs pg r raw h

/-! ### Inbound and external characterizations -/

theorem pil_inbound_pt (fs : FS) (pg : String) (r : AuditResult) (raw p : String) :
    (process_internal_link fs pg r raw).inbound_links p
      = r.inbound_links p + internalInbound fs pg raw p := by
  rw [pil_inbound]
  unfold internalInbound
  rcases hc : check_local_file_exists fs (normalize_local_url raw pg) with _ | _
  · simp [hc]
  · rw [if_pos rfl]
    simp only [bumpInbound]
    rcases hp : decide (cleanPathOf (normalize_local_url raw pg) = p) with _ | _
    · have hp' := of_decide_eq_false hp
      rw [if_neg fun hh => hp' hh.symm]
      simp [hp]
    · have hp' := of_decide_eq_true hp
      rw [if_pos hp'.symm]
      simp [hp]

theorem processHref_inbound (fs : FS) (bu pg : String) (r : AuditResult) (raw p : String) :
    (processHref fs bu pg r raw).inbound_links p
      = r.inbound_links p + hrefInbound fs bu pg raw p := by
  simp only [processHref]
  unfold hrefInbound
  split
  · simp
  · split
    · split
      · rw [show (if pyDrop raw (sLength bu) = "" then "/" else pyDrop raw (sLength bu))
            = strippedHref bu raw from rfl]
        rw [pil_inbound_pt]
        simp [add_warning]
      · simp [insertExternal]
    · exact pil_inbound_pt fs pg r raw p

theorem processHref_external_iff (fs : FS) (bu pg : String) (r : AuditResult)
    (raw u : String) :
    (u ∈ (processHref fs bu pg r raw).external_links
      ↔ u ∈ r.external_links ∨ (hrefExternal bu raw = true ∧ u = raw)) := by
  simp only [processHref]
  unfold hrefExternal
  split
  · rename_i hig
    simp [hig]
  · rename_i hig
    rw [Bool.not_eq_true] at hig
    split
    · rename_i hext
      split
      · rename_i hpre
        rw [process_internal_link_externals]
        simp only [add_warning]
        constructor
        · exact fun h => Or.inl h
        · rintro (h | h)
          · exact h
          · rw [hpre] at h
            simp at h
      · rename_i hpre
        rw [Bool.not_eq_true] at hpre
        simp only [insertExternal]
        split
        · rename_i hcont
          constructor
          · exact fun h => Or.inl h
          · rintro (h | ⟨-, rfl⟩)
            · exact h
            · simpa using hcont
        · constructor
          · intro h
            rcases List.mem_append.mp h with h | h
            · exact Or.inl h
            · exact Or.inr ⟨by rw [hig, hext, hpre]; rfl, List.mem_singleton.mp h⟩
          · rintro (h | ⟨-, rfl⟩)
            · exact List.mem_append_left _ h
            · exact List.mem_append_right _ (by simp)
    · rename_i hext
      rw [Bool.not_eq_true] at hext
      rw [process_internal_link_externals]
      simp [hext]

/-! ### Per-page characterization -/

theorem check_h1_chr (page : PageDoc) (r : AuditResult) (h : 0 ≤ r.score) :
    (check_h1 page r).score = max 0 (r.score - (if page.h1Count = 0 then 5 else 0)) ∧
    (check_h1 page r).inbound_links = r.inbound_links ∧
    (check_h1 page r).external_links = r.external_links ∧
    (check_h1 page r).pages_scanned = r.pages_scanned := by
  unfold check_h1 add_error add_warning
  split
  · exact ⟨rfl, rfl, rfl, rfl⟩
  · split
    · exact ⟨by simp <;> omega, rfl, rfl, rfl⟩
    · exact ⟨by simp <;> omega, rfl, rfl, rfl⟩

theorem check_schema_chr (page : PageDoc) (r : AuditResult) (h : 0 ≤ r.score) :
    (check_schema page r).score = max 0 (r.score - (if !page.hasSchema then 2 else 0)) ∧
    (check_schema page r).inbound_links = r.inbound_links ∧
    (check_schema page r).external_links = r.external_links ∧
    (check_schema page r).pages_scanned = r.pages_scanned := by
  unfold check_schema add_warning
  split
  · exact ⟨rfl, rfl, rfl, rfl⟩
  · exact ⟨by simp <;> omega, rfl, rfl, rfl⟩

theorem check_breadcrumb_chr (page : PageDoc) (r : AuditResult) (h : 0 ≤ r.score) :
    (check_breadcrumb page r).score = r.score ∧
    (check_breadcrumb page r).inbound_links = r.inbound_links ∧
    (check_breadcrumb page r).external_links = r.external_links ∧
    (check_breadcrumb page r).pages_scanned = r.pages_scanned := by
  unfold check_breadcrumb add_warning
  split
  · exact ⟨rfl, rfl, rfl, rfl⟩
  · split
    · exact ⟨rfl, rfl, rfl, rfl⟩
    · split
      · exact ⟨by simp <;> omega, rfl, rfl, rfl⟩
      · exact ⟨rfl, rfl, rfl, rfl⟩

theorem processHref_score_nonneg (fs : FS) (bu pg : String) (r : AuditResult)
    (raw : String) (h : 0 ≤ r.score) : 0 ≤ (processHref fs bu pg r raw).score := by
  rw [processHref_score fs bu pg r raw h]
  omega

theorem pil_scanned (fs : FS) (pg : String) (r : AuditResult) (raw : String) :
    (process_internal_link fs pg r raw).pages_scanned = r.pages_scanned := by
  simp only [process_internal_link, add_error]
  split
  · exact (style_checks_fields pg r raw).2.2.2.2
  · exact (style_checks_fields pg r raw).2.2.2.2

theorem processHref_scanned (fs : FS) (bu pg : String) (r : AuditResult) (raw : String) :
    (processHref fs bu pg r raw).pages_scanned = r.pages_scanned := by
  simp only [processHref]
  split
  · rfl
  · split
    · split
      · rw [pil_scanned]
        rfl
      · rfl
    · exact pil_scanned fs pg r raw

theorem check_links_chr (fs : FS) (bu pg : String) :
    ∀ (hrefs : List String) (r : AuditResult), 0 ≤ r.score →
      (check_links fs bu pg r hrefs).score
          = max 0 (r.score - (hrefs.map (hrefPenalty fs bu pg)).sum) ∧
      (∀ p, (check_links fs bu pg r hrefs).inbound_links p
          = r.inbound_links p + (hrefs.map fun raw => hrefInbound fs bu pg raw p).sum) ∧
      (∀ u, u ∈ (check_links fs bu pg r hrefs).external_links
          ↔ u ∈ r.external_links ∨ (u ∈ hrefs ∧ hrefExternal bu u = true)) ∧
      (check_links fs bu pg r hrefs).pages_scanned = r.pages_scanned
  | [], r, h => by
    refine ⟨by simp [check_links] <;> omega, fun p => by simp [check_links],
      fun u => by simp [check_links], by simp [check_links]⟩
  | a :: t, r, h => by
    have hstep0 := processHref_score fs bu pg r a h
    have hrec := check_links_chr fs bu pg t (processHref fs bu pg r a)
      (processHref_score_nonneg fs bu pg r a h)
    unfold check_links at hrec ⊢
    rw [List.foldl_cons]
    refine ⟨?_, fun p => ?_, fun u => ?_, ?_⟩
    · rw [hrec.1, hstep0, List.map_cons, List.sum_cons,
        clamp_clamp r.score (hrefPenalty fs bu pg a)
          ((t.map (hrefPenalty fs bu pg)).sum)
          (List.sum_nonneg fun x hx => by
            obtain ⟨raw, -, rfl⟩ := List.mem_map.mp hx
            exact hrefPenalty_nonneg fs bu pg raw)]
    · rw [hrec.2.1 p, processHref_inbound, List.map_cons, List.sum_cons]
      omega
    · rw [hrec.2.2.1 u, processHref_external_iff]
      constructor
      · rintro ((h | ⟨hx, rfl⟩) | ⟨ht, hx⟩)
        · exact Or.inl h
        · exact Or.inr ⟨List.mem_cons_self _ _, hx⟩
        · exact Or.inr ⟨List.mem_cons_of_mem a ht, hx⟩
      · rintro (h | ⟨hmem, hx⟩)
        · exact Or.inl (Or.inl h)
        · rcases List.mem_cons.mp hmem with rfl | hmem
          · exact Or.inl (Or.inr ⟨hx, rfl⟩)
          · exact Or.inr ⟨hmem, hx⟩
    · rw [hrec.2.2.2, processHref_scanned]

theorem auditPage_chr (fs : FS) (bu : String) (page : PageDoc) (r : AuditResult)
    (h : 0 ≤ r.score) :
    (auditPage fs bu r page).score = max 0 (r.score - pagePenalty fs bu page) ∧
    (∀ p, (auditPage fs bu r page).inbound_links p
        = r.inbound_links p + pageInbound fs bu page p) ∧
    (∀ u, u ∈ (auditPage fs bu r page).external_links
        ↔ u ∈ r.external_links ∨ (u ∈ page.hrefs ∧ hrefExternal bu u = true)) ∧
    (auditPage fs bu r page).pages_scanned = r.pages_scanned + 1 := by
  unfold auditPage
  have h1 := check_h1_chr page r h
  have h1n : 0 ≤ (check_h1 page r).score := by rw [h1.1]; omega
  have h2 := check_schema_chr page (check_h1 page r) h1n
  have h2n : 0 ≤ (check_schema page (check_h1 page r)).score := by rw [h2.1]; omega
  have h3 := check_breadcrumb_chr page (check_schema page (check_h1 page r)) h2n
  have h3n : 0 ≤ (check_breadcrumb page (check_schema page (check_h1 page r))).score := by
    rw [h3.1]; omega
  have h4 := check_links_chr fs bu page.relPath page.hrefs _ h3n
  refine ⟨?_, fun p => ?_, fun u => ?_, ?_⟩
  · show (check_links fs bu page.relPath _ page.hrefs).score = _
    rw [h4.1, h3.1, h2.1, h1.1]
    unfold pagePenalty
    rw [clamp_clamp r.score _ _
      (by split <;> omega : (0:Int) ≤ (if !page.hasSchema then 2 else 0))]
    rw [clamp_clamp r.score _ _
      (List.sum_nonneg fun x hx => by
        obtain ⟨raw, -, rfl⟩ := List.mem_map.mp hx
        exact hrefPenalty_nonneg fs bu page.relPath raw)]
  · show (check_links fs bu page.relPath _ page.hrefs).inbound_links p = _
    rw [h4.2.1 p, h3.2.1, h2.2.1, h1.2.1]
    rfl
  · show u ∈ (check_links fs bu page.relPath _ page.hrefs).external_links ↔ _
    rw [h4.2.2.1 u, h3.2.2.1, h2.2.2.1, h1.2.2.1]
  · show (check_links fs bu page.relPath _ page.hrefs).pages_scanned + 1 = _
    rw [h4.2.2.2, h3.2.2.2, h2.2.2.2, h1.2.2.2]

/-! ### Phase-level characterizations -/

theorem scan_chr (fs : FS) (bu : String) :
    ∀ (pages : List PageDoc) (r : AuditResult), 0 ≤ r.score →
      (pages.foldl (auditPage fs bu) r).score
          = max 0 (r.score - (pages.map (pagePenalty fs bu)).sum) ∧
      (∀ p, (pages.foldl (auditPage fs bu) r).inbound_links p
          = r.inbound_links p + (pages.map fun page => pageInbound fs bu page p).sum) ∧
      (∀ u, u ∈ (pages.foldl (auditPage fs bu) r).external_links
          ↔ u ∈ r.external_links
            ∨ ∃ page ∈ pages, u ∈ page.hrefs ∧ hrefExternal bu u = true) ∧
      (pages.foldl (auditPage fs bu) r).pages_scanned = r.pages_scanned + pages.length
  | [], r, h => by
    refine ⟨by simp <;> omega, fun p => by simp, fun u => by simp, by simp⟩
  | page :: t, r, h => by
    have hpage := auditPage_chr fs bu page r h
    have hn : 0 ≤ (auditPage fs bu r page).score := by rw [hpage.1]; omega
    have hrec := scan_chr fs bu t (auditPage fs bu r page) hn
    rw [List.foldl_cons]
    refine ⟨?_, fun p => ?_, fun u => ?_, ?_⟩
    · rw [hrec.1, hpage.1, List.map_cons, List.sum_cons,
        clamp_clamp r.score _ _
          (List.sum_nonneg fun x hx => by
            obtain ⟨pg, -, rfl⟩ := List.mem_map.mp hx
            exact pagePenalty_nonneg fs bu pg)]
    · rw [hrec.2.1 p, hpage.2.1 p, List.map_cons, List.sum_cons]
      omega
    · rw [hrec.2.2.1 u, hpage.2.2.1 u]
      constructor
      · rintro ((h | h) | ⟨pg, hpg, hu⟩)
        · exact Or.inl h
        · exact Or.inr ⟨page, List.mem_cons_self _ _, h⟩
        · exact Or.inr ⟨pg, List.mem_cons_of_mem _ hpg, hu⟩
      · rintro (h | ⟨pg, hpg, hu⟩)
        · exact Or.inl (Or.inl h)
        · rcases List.mem_cons.mp hpg with rfl | hpg
          · exact Or.inl (Or.inr hu)
          · exact Or.inr ⟨pg, hpg, hu⟩
    · rw [hrec.2.2.2, hpage.2.2.2, List.length_cons]
      omega

/-- `orphanCheckPage` in terms of the orphan condition. -/
theorem orphanCheckPage_eq (r : AuditResult) (relPath : String) :
    orphanCheckPage r relPath =
      if relPath = "index.html" then r
      else if isOrphanB r.inbound_links relPath
      then add_warning r ("Orphan Page (No inbound links): " ++ relPath) 5
      else r := by
  simp only [orphanCheckPage, isOrphanB]

theorem orphanCheckPage_chr (r : AuditResult) (relPath : String) (h : 0 ≤ r.score) :
    (orphanCheckPage r relPath).score
        = max 0 (r.score - orphanPenalty r.inbound_links relPath) ∧
    (orphanCheckPage r relPath).inbound_links = r.inbound_links ∧
    (orphanCheckPage r relPath).external_links = r.external_links ∧
    (orphanCheckPage r relPath).pages_scanned = r.pages_scanned := by
  rw [orphanCheckPage_eq]
  unfold orphanPenalty
  by_cases hroot : relPath = "index.html"
  · rw [if_pos hroot, if_pos hroot]
    exact ⟨by omega, rfl, rfl, rfl⟩
  · rw [if_neg hroot, if_neg hroot]
    rcases ho : isOrphanB r.inbound_links relPath with _ | _
    · rw [if_neg Bool.false_ne_true]
      exact ⟨by simp <;> omega, rfl, rfl, rfl⟩
    · rw [if_pos rfl]
      exact ⟨rfl, rfl, rfl, rfl⟩

theorem orphanPhase_chr (pages : List PageDoc) :
    ∀ (r : AuditResult), 0 ≤ r.score →
      ((pages.foldl (fun r page => orphanCheckPage r page.relPath) r).score
          = max 0 (r.score
            - (pages.map fun page => orphanPenalty r.inbound_links page.relPath).sum)) ∧
      (pages.foldl (fun r page => orphanCheckPage r page.relPath) r).inbound_links
          = r.inbound_links ∧
      (pages.foldl (fun r page => orphanCheckPage r page.relPath) r).external_links
          = r.external_links ∧
      (pages.foldl (fun r page => orphanCheckPage r page.relPath) r).pages_scanned
          = r.pages_scanned := by
  induction pages with
  | nil =>
    intro r h
    refine ⟨by simp <;> omega, rfl, rfl, rfl⟩
  | cons page t ih =>
    intro r h
    have hstep := orphanCheckPage_chr r page.relPath h
    have hn : 0 ≤ (orphanCheckPage r page.relPath).score := by rw [hstep.1]; omega
    have hrec := ih (orphanCheckPage r page.relPath) hn
    rw [List.foldl_cons]
    refine ⟨?_, ?_, ?_, ?_⟩
    · rw [hrec.1, hstep.1, hstep.2.1, List.map_cons, List.sum_cons,
        clamp_clamp r.score _ _
          (List.sum_nonneg fun x hx => by
            obtain ⟨pg, -, rfl⟩ := List.mem_map.mp hx
            exact orphanPenalty_nonneg r.inbound_links pg.relPath)]
    · rw [hrec.2.1, hstep.2.1]
    · rw [hrec.2.2.1, hstep.2.2.1]
    · rw [hrec.2.2.2, hstep.2.2.2]

theorem check_all_length (net : NetOracle) :
    ∀ order : List String,
      (check_all net order).length = (order.filter (urlDead net)).length
  | [] => rfl
  | u :: t => by
    by_cases hc : 400 ≤ (check_one net u).1
    · have e1 : check_all net (u :: t) = (u, (check_one net u).1) :: check_all net t := by
        simp only [check_all, List.filterMap_cons]
        rw [if_pos hc]
      have e2 : (u :: t).filter (urlDead net) = u :: t.filter (urlDead net) := by
        rw [List.filter_cons, if_pos (by unfold urlDead; exact decide_eq_true hc)]
      rw [e1, e2, List.length_cons, List.length_cons, check_all_length net t]
    · have e1 : check_all net (u :: t) = check_all net t := by
        simp only [check_all, List.filterMap_cons]
        rw [if_neg hc]
      have e2 : (u :: t).filter (urlDead net) = t.filter (urlDead net) := by
        rw [List.filter_cons,
          if_neg (by unfold urlDead; simp only [decide_eq_true_eq]; exact hc)]
      rw [e1, e2, check_all_length net t]

theorem externalPhase_chr (net : NetOracle) (order : List String) (r : AuditResult)
    (h : 0 ≤ r.score) :
    (externalPhase net r order).score
        = max 0 (r.score - 5 * ((order.filter (urlDead net)).length : Int)) ∧
    (externalPhase net r order).inbound_links = r.inbound_links ∧
    (∀ u, u ∈ (externalPhase net r order).external_links ↔ u ∈ r.external_links) ∧
    (externalPhase net r order).pages_scanned = r.pages_scanned := by
  have key : ∀ (l : List (String × Nat)) (r : AuditResult), 0 ≤ r.score →
      ((l.foldl (fun r p => add_error r ("Dead External Link: " ++ p.1 ++ " (Status: "
          ++ toString p.2 ++ ")") 5) r).score = max 0 (r.score - 5 * (l.length : Int))) ∧
      (l.foldl (fun r p => add_error r ("Dead External Link: " ++ p.1 ++ " (Status: "
          ++ toString p.2 ++ ")") 5) r).inbound_links = r.inbound_links ∧
      (l.foldl (fun r p => add_error r ("Dead External Link: " ++ p.1 ++ " (Status: "
          ++ toString p.2 ++ ")") 5) r).external_links = r.external_links ∧
      (l.foldl (fun r p => add_error r ("Dead External Link: " ++ p.1 ++ " (Status: "
          ++ toString p.2 ++ ")") 5) r).pages_scanned = r.pages_scanned := by
    intro l
    induction l with
    | nil =>
      intro r h
      refine ⟨by simp <;> omega, rfl, rfl, rfl⟩
    | cons a t ih =>
      intro r h
      have hn : 0 ≤ (add_error r ("Dead External Link: " ++ a.1 ++ " (Status: "
          ++ toString a.2 ++ ")") 5).score := by
        simp [add_error]
      have hrec := ih (add_error r ("Dead External Link: " ++ a.1 ++ " (Status: "
          ++ toString a.2 ++ ")") 5) hn
      rw [List.foldl_cons]
      refine ⟨?_, hrec.2.1, hrec.2.2.1, hrec.2.2.2⟩
      rw [hrec.1]
      simp only [add_error, List.length_cons]
      have : (0:Int) ≤ 5 * (t.length : Int) := by positivity
      rw [clamp_clamp r.score 5 (5 * (t.length : Int)) this]
      congr 1
      push_cast
      ring
  unfold externalPhase
  have hk := key (check_all net order) r h
  refine ⟨?_, hk.2.1, fun u => by rw [hk.2.2.1], hk.2.2.2⟩
  rw [hk.1, check_all_length net order]

/-! ### Whole-run characterization and order-independence -/

theorem runAudit_chr (fs : FS) (bu : String) (pages : List PageDoc) (net : NetOracle)
    (ord : List String) :
    (runAudit fs bu pages net ord).score
        = max 0 (100 - ((pages.map (pagePenalty fs bu)).sum
            + ((pages.map fun page => orphanPenalty
                (fun p => (pages.map fun pg => pageInbound fs bu pg p).sum)
                page.relPath).sum
              + 5 * ((ord.filter (urlDead net)).length : Int)))) ∧
    (∀ p, (runAudit fs bu pages net ord).inbound_links p
        = (pages.map fun pg => pageInbound fs bu pg p).sum) ∧
    (∀ u, u ∈ (runAudit fs bu pages net ord).external_links
        ↔ ∃ page ∈ pages, u ∈ page.hrefs ∧ hrefExternal bu u = true) ∧
    (runAudit fs bu pages net ord).pages_scanned = pages.length := by
  have hinit : (0:Int) ≤ initResult.score := by decide
  have hscan := scan_chr fs bu pages initResult hinit
  have hscann : 0 ≤ (pages.foldl (auditPage fs bu) initResult).score := by
    rw [hscan.1]
    omega
  have hinb : (pages.foldl (auditPage fs bu) initResult).inbound_links
      = fun p => (pages.map fun pg => pageInbound fs bu pg p).sum := by
    funext p
    rw [hscan.2.1 p]
    unfold initResult
    simp
  have horph := orphanPhase_chr pages (pages.foldl (auditPage fs bu) initResult) hscann
  have horphn : 0 ≤ (pages.foldl (fun r page => orphanCheckPage r page.relPath)
      (pages.foldl (auditPage fs bu) initResult)).score := by
    rw [horph.1]
    omega
  have hext := externalPhase_chr net ord _ horphn
  have hBnn : (0:Int) ≤ (pages.map fun page => orphanPenalty
      (fun p => (pages.map fun pg => pageInbound fs bu pg p).sum) page.relPath).sum :=
    List.sum_nonneg fun x hx => by
      obtain ⟨pg, -, rfl⟩ := List.mem_map.mp hx
      exact orphanPenalty_nonneg _ pg.relPath
  have hCnn : (0:Int) ≤ 5 * ((ord.filter (urlDead net)).length : Int) := by positivity
  refine ⟨?_, fun p => ?_, fun u => ?_, ?_⟩
  · show (externalPhase net _ ord).score = _
    rw [hext.1, horph.1, hscan.1, hinb]
    have h100 : initResult.score = 100 := rfl
    rw [h100]
    rw [clamp_clamp 100 _ _ hBnn, clamp_clamp 100 _ _ hCnn]
    rw [add_assoc]
  · show (externalPhase net _ ord).inbound_links p = _
    rw [hext.2.1, horph.2.1, hscan.2.1 p]
    unfold initResult
    simp
  · show u ∈ (externalPhase net _ ord).external_links ↔ _
    rw [hext.2.2.1 u, horph.2.2.1, hscan.2.2.1 u]
    unfold initResult
    simp
  · show (externalPhase net _ ord).pages_scanned = _
    rw [hext.2.2.2, horph.2.2.2, hscan.2.2.2]
    unfold initResult
    simp

/-- C9 amended: over an unchanged tree and stable network, the audit's
score, inbound-link histogram, external-URL set (as a set), and
pages-scanned count do not depend on the filesystem traversal order or on
the external checker's completion order. -/
theorem audit_order_independent (fs : FS) (bu : String) (net : NetOracle)
    (pages1 pages2 : List PageDoc) (ord1 ord2 : List String)
    (hp : pages1.Perm pages2) (ho : ord1.Perm ord2) :
    (runAudit fs bu pages1 net ord1).score = (runAudit fs bu pages2 net ord2).score ∧
    (∀ p, (runAudit fs bu pages1 net ord1).inbound_links p
        = (runAudit fs bu pages2 net ord2).inbound_links p) ∧
    (∀ u, u ∈ (runAudit fs bu pages1 net ord1).external_links
        ↔ u ∈ (runAudit fs bu pages2 net ord2).external_links) ∧
    (runAudit fs bu pages1 net ord1).pages_scanned
        = (runAudit fs bu pages2 net ord2).pages_scanned := by
  have h1 := runAudit_chr fs bu pages1 net ord1
  have h2 := runAudit_chr fs bu pages2 net ord2
  have hA : (pages1.map (pagePenalty fs bu)).sum = (pages2.map (pagePenalty fs bu)).sum :=
    (hp.map (pagePenalty fs bu)).sum_eq
  have hI : ∀ p, (pages1.map fun pg => pageInbound fs bu pg p).sum
      = (pages2.map fun pg => pageInbound fs bu pg p).sum :=
    fun p => (hp.map fun pg => pageInbound fs bu pg p).sum_eq
  have hIf : (fun p => (pages1.map fun pg => pageInbound fs bu pg p).sum)
      = (fun p => (pages2.map fun pg => pageInbound fs bu pg p).sum) :=
    funext hI
  have hB : (pages1.map fun page => orphanPenalty
        (fun p => (pages1.map fun pg => pageInbound fs bu pg p).sum) page.relPath).sum
      = (pages2.map fun page => orphanPenalty
        (fun p => (pages2.map fun pg => pageInbound fs bu pg p).sum) page.relPath).sum := by
    rw [hIf]
    exact (hp.map _).sum_eq
  have hC : ((ord1.filter (urlDead net)).length : Int)
      = ((ord2.filter (urlDead net)).length : Int) := by
    rw [(ho.filter (urlDead net)).length_eq]
  refine ⟨?_, fun p => ?_, fun u => ?_, ?_⟩
  · rw [h1.1, h2.1, hA, hB, hC]
  · rw [h1.2.1 p, h2.2.1 p, hI p]
  · rw [h1.2.2.1 u, h2.2.2.1 u]
    constructor
    · rintro ⟨pg, hmem, hu⟩
      exact ⟨pg, hp.mem_iff.mp hmem, hu⟩
    · rintro ⟨pg, hmem, hu⟩
      exact ⟨pg, hp.mem_iff.mpr hmem, hu⟩
  · rw [h1.2.2.2, h2.2.2.2, hp.length_eq]

/-- C9 counterexample: the same tree and network, but the two probes
complete in the opposite order; both schedules are permutations of the
collected external-URL set, yet the ordered error sequences of the two
runs differ, so the full `AuditResult` is not identical. -/
theorem audit_schedule_counterexample :
    List.Perm ["https://a.example/x", "https://b.example/y"]
      ["https://b.example/y", "https://a.example/x"] ∧
    (([PageDoc.mk "index.html" 1 true true
        ["https://a.example/x", "https://b.example/y"]] :
        List PageDoc).foldl (auditPage ⟨["index.html"], []⟩ "") initResult).external_links
      = ["https://a.example/x", "https://b.example/y"] ∧
    (runAudit ⟨["index.html"], []⟩ ""
        [PageDoc.mk "index.html" 1 true true
          ["https://a.example/x", "https://b.example/y"]]
        ⟨fun _ => ProbeResult.status 404, fun _ => ProbeResult.status 200⟩
        ["https://a.example/x", "https://b.example/y"]).errors
      ≠ (runAudit ⟨["index.html"], []⟩ ""
        [PageDoc.mk "index.html" 1 true true
          ["https://a.example/x", "https://b.example/y"]]
        ⟨fun _ => ProbeResult.status 404, fun _ => ProbeResult.status 200⟩
        ["https://b.example/y", "https://a.example/x"]).errors :=
  ⟨List.Perm.swap _ _ _, by decide, by decide⟩

theorem audit_order_independent_witness :
    List.Perm ["https://a.example/x", "https://b.example/y"]
      ["https://b.example/y", "https://a.example/x"] ∧
    (runAudit ⟨["index.html"], []⟩ ""
        [PageDoc.mk "index.html" 1 true true
          ["https://a.example/x", "https://b.example/y"]]
        ⟨fun _ => ProbeResult.status 404, fun _ => ProbeResult.status 200⟩
        ["https://a.example/x", "https://b.example/y"]).score
      = (runAudit ⟨["index.html"], []⟩ ""
        [PageDoc.mk "index.html" 1 true true
          ["https://a.example/x", "https://b.example/y"]]
        ⟨fun _ => ProbeResult.status 404, fun _ => ProbeResult.status 200⟩
        ["https://b.example/y", "https://a.example/x"]).score :=
  ⟨List.Perm.swap _ _ _,
   (audit_order_independent ⟨["index.html"], []⟩ ""
      ⟨fun _ => ProbeResult.status 404, fun _ => ProbeResult.status 200⟩
      [PageDoc.mk "index.html" 1 true true
        ["https://a.example/x", "https://b.example/y"]]
      [PageDoc.mk "index.html" 1 true true
        ["https://a.example/x", "https://b.example/y"]]
      ["https://a.example/x", "https://b.example/y"]
      ["https://b.example/y", "https://a.example/x"]
      (List.Perm.refl _) (List.Perm.swap _ _ _)).1⟩

end SEOAudit
